import Mathlib

/-!
Verification development for the CUA agent runtime.

Each Python function referenced by the claims is shallow-embedded as an
executable Lean definition that mirrors the source control flow:

* `agent/callbacks/image_retention.py` → `Cua.applyImageRetention` /
  `Cua.on_llm_start` (message lists with index-based removal);
* `agent/callbacks/operator_validator.py` → `Cua.normalizeAction` /
  `Cua.on_llm_end` (Python dicts as lookup functions `String → Option PyVal`,
  since Python `==` on dicts compares key/value mappings);
* `agent/loops/qwen.py`, `gemini.py`, `internvl.py`, `holo.py` → coordinate
  rescaling helpers over `ℚ` with Python banker's rounding;
* `agent/loops/internvl.py` / `opencua.py` `predict_step` delegation;
* `agent/proxy/handlers.py` → `Cua.process_request` and the environment
  override context manager;
* `core/telemetry/telemetry.py` → `Cua.telemetry_disabled` /
  `Cua.is_telemetry_enabled`.

Effectful collaborators (LLM calls, screenshots, the computer handler,
`setup_computer_agent`, `agent.run`) are passed in as explicit parameters or
`Except` values, mirroring the data they deliver to the embedded code.
-/

namespace Cua

/-! ## Image retention (`ImageRetentionCallback`, image_retention.py)

A message dict is reduced to the fields the callback reads: `msg.get("type")`,
`msg.get("call_id")`, and whether `msg.get("output")` is a dict containing the
key `"image_url"`. -/

structure Msg where
  type : Option String
  callId : Option String
  outputHasImage : Bool
deriving DecidableEq, Repr

/-- `msg.get("type") == "computer_call_output"` and its `output` is a dict
with an `"image_url"` key (the condition gathering `output_indices`). -/
def isImageOutput (m : Msg) : Bool :=
  m.type == some "computer_call_output" && m.outputHasImage

/-- Indices of all `computer_call_output` messages containing an `image_url`
(the `output_indices` list built by `_apply_image_retention`). -/
def outputIndices (msgs : List Msg) : List Nat :=
  (msgs.enum.filter fun p => isImageOutput p.2).map Prod.fst

/-- Python `lst[-n:]` for a nonnegative `n`: the whole list when `n = 0`
(`lst[-0:] = lst[0:]`), otherwise the suffix of length `n`. -/
def pyTailSlice (l : List Nat) (n : Nat) : List Nat :=
  if n = 0 then l else l.drop (l.length - n)

/-- The single `reasoning` check right before an already-removed
`computer_call` at index `pidx`: remove `pidx - 1` when it exists and has
type `"reasoning"`. -/
def removalReasoning (msgs : List Msg) (pidx : Nat) : List Nat :=
  match pidx with
  | 0 => []
  | ridx + 1 =>
    match msgs[ridx]? with
    | some rm => if rm.type = some "reasoning" then [ridx] else []
    | none => []

/-- The `computer_call` check right before an evicted output at index `idx`:
remove `idx - 1` when it exists, has type `"computer_call"` and carries the
same `call_id` as the output (Python `None == None` is `True`, hence plain
`Option` equality), together with a preceding `reasoning` item. -/
def removalPrev (msgs : List Msg) (idx : Nat) : List Nat :=
  match idx with
  | 0 => []
  | pidx + 1 =>
    match msgs[pidx + 1]?, msgs[pidx]? with
    | some m, some pm =>
      if pm.type = some "computer_call" ∧ pm.callId = m.callId then
        pidx :: removalReasoning msgs pidx
      else []
    | _, _ => []

/-- Everything `_apply_image_retention` adds to `to_remove` for one evicted
output index `idx`: the output itself plus the adjacent-pair checks. -/
def removalGroup (msgs : List Msg) (idx : Nat) : List Nat :=
  idx :: removalPrev msgs idx

/-- The output indices NOT kept: `output_indices` minus
`set(output_indices[-n:])` (iteration order of the Python loop). -/
def evictIndices (msgs : List Msg) (n : Nat) : List Nat :=
  (outputIndices msgs).filter fun i => !((pyTailSlice (outputIndices msgs) n).contains i)

/-- The full `to_remove` index set (as a list; only membership matters). -/
def removeSet (msgs : List Msg) (n : Nat) : List Nat :=
  (evictIndices msgs n).flatMap (removalGroup msgs)

/-- The surviving `(index, message)` pairs of the final filtering pass
`[m for i, m in enumerate(messages) if i not in to_remove]`. -/
def retainedEnum (msgs : List Msg) (n : Nat) : List (Nat × Msg) :=
  msgs.enum.filter fun p => !((removeSet msgs n).contains p.1)

/-- `ImageRetentionCallback._apply_image_retention` for a configured `n`. -/
def applyImageRetention (n : Nat) (msgs : List Msg) : List Msg :=
  if (outputIndices msgs).length ≤ n then msgs
  else (retainedEnum msgs n).map Prod.snd

/-- `ImageRetentionCallback.on_llm_start`: identity when
`only_n_most_recent_images` is `None`. -/
def on_llm_start (onlyN : Option Nat) (msgs : List Msg) : List Msg :=
  match onlyN with
  | none => msgs
  | some n => applyImageRetention n msgs

/-- Message examples used for concrete counterexamples/witnesses. -/
def ccA : Msg := ⟨some "computer_call", some "a", false⟩

def ccoA : Msg := ⟨some "computer_call_output", some "a", true⟩

def ccB : Msg := ⟨some "computer_call", some "b", false⟩

def ccoB : Msg := ⟨some "computer_call_output", some "b", true⟩

def plainMsg : Msg := ⟨some "message", none, false⟩

def reasoningMsg : Msg := ⟨some "reasoning", none, false⟩

/-- An evicted output whose paired `computer_call` is *not* adjacent. -/
def c4ex : List Msg := [ccA, plainMsg, ccoA, ccB, ccoB]

/-- An evicted output with an adjacent pair and a preceding reasoning item. -/
def c4adj : List Msg := [reasoningMsg, ccA, ccoA, ccB, ccoB]

/-! ## Operator normalizer (`OperatorNormalizerCallback.on_llm_end`,
operator_validator.py)

Python dicts compare by key/value mapping (`==` ignores insertion order), so
an action dict is embedded as a lookup function `String → Option PyVal`;
`del` stores `none`, `in` is `isSome`, and `_keep_keys` restricts the domain.
`float()` of strings is not modelled (coordinates arrive as JSON numbers). -/

inductive PyVal where
  | str : String → PyVal
  | int : Int → PyVal
  | bool : Bool → PyVal
  | float : ℚ → PyVal
  | list : List PyVal → PyVal
  | dict : (String → Option PyVal) → PyVal

abbrev PyDict := String → Option PyVal

/-- `d[k] = v` -/
def dset (m : PyDict) (k : String) (v : PyVal) : PyDict :=
  fun q => if q = k then some v else m q

/-- `del d[k]` -/
def ddel (m : PyDict) (k : String) : PyDict :=
  fun q => if q = k then none else m q

/-- `k in d` -/
def dmem (m : PyDict) (k : String) : Bool := (m k).isSome

/-- `d.get(k, default)` -/
def dgetD (m : PyDict) (k : String) (d : PyVal) : PyVal := (m k).getD d

/-- `_keep_keys`: delete every key not in `ks`. -/
def keepOnly (m : PyDict) (ks : List String) : PyDict :=
  fun q => if ks.contains q then m q else none

/-- Python `v == s` for a string literal `s`: only a `str` compares equal. -/
def pyEqStr (v : PyVal) (s : String) : Bool :=
  match v with
  | .str t => t == s
  | _ => false

/-- `d.get(k) == s` with a missing key never equal to a string. -/
def optEqStr (v : Option PyVal) (s : String) : Bool :=
  match v with
  | some w => pyEqStr w s
  | none => false

/-- Python `v[i]` for a nonnegative index (IndexError / TypeError raise). -/
def pySubscript (v : PyVal) (i : Nat) : Except String PyVal :=
  match v with
  | .list l =>
    match l[i]? with
    | some x => .ok x
    | none => .error "IndexError"
  | .str s =>
    match s.toList[i]? with
    | some c => .ok (.str (String.mk [c]))
    | none => .error "IndexError"
  | _ => .error "TypeError"

def mouseButtons : List String := ["left", "right", "wheel", "back", "forward"]

/-- One iteration of the `for mouse_btn in [...]` rename loop. -/
def mouseRename1 (b : String) (m : PyDict) : PyDict :=
  if pyEqStr (dgetD m "type" (.str "")) (b ++ "_click") then
    dset (dset m "type" (.str "click")) "button" (.str b)
  else m

def renameMouse (m : PyDict) : PyDict :=
  mouseButtons.foldl (fun m b => mouseRename1 b m) m

def typeAliases : List String := ["hotkey", "key", "press", "key_press"]

/-- One iteration of the `for alias in [...]` keypress rename loop. -/
def aliasRename1 (al : String) (m : PyDict) : PyDict :=
  if pyEqStr (dgetD m "type" (.str "")) al then dset m "type" (.str "keypress") else m

def renameKeyAliases (m : PyDict) : PyDict :=
  typeAliases.foldl (fun m al => aliasRename1 al m) m

/-- `if "button" in action and "type" not in action: action["type"] = "click"` -/
def inferClick1 (m : PyDict) : PyDict :=
  if dmem m "button" && !dmem m "type" then dset m "type" (.str "click") else m

/-- `if "click" in action and "type" not in action: action["type"] = "click"` -/
def inferClick2 (m : PyDict) : PyDict :=
  if dmem m "click" && !dmem m "type" then dset m "type" (.str "click") else m

/-- `if ("scroll_x" in action or "scroll_y" in action) and "type" not in action` -/
def inferScroll (m : PyDict) : PyDict :=
  if (dmem m "scroll_x" || dmem m "scroll_y") && !dmem m "type" then
    dset m "type" (.str "scroll")
  else m

/-- `if "text" in action and "type" not in action: action["type"] = "type"` -/
def inferText (m : PyDict) : PyDict :=
  if dmem m "text" && !dmem m "type" then dset m "type" (.str "type") else m

def inferTypeFromKeys (m : PyDict) : PyDict :=
  inferText (inferScroll (inferClick2 (inferClick1 m)))

/-- `action["x"] = action["coordinate"][0]; action["y"] = ...; del ...`. -/
def renameCoordinate (m : PyDict) : Except String PyDict :=
  match m "coordinate" with
  | some c =>
    match pySubscript c 0 with
    | .error e => .error e
    | .ok x =>
      match pySubscript c 1 with
      | .error e => .error e
      | .ok y => .ok (ddel (dset (dset m "x" x) "y" y) "coordinate")
  | none => .ok m

/-- `if "button" not in action and "click" in action: ...` -/
def clickFromAlias (m : PyDict) : PyDict :=
  if !dmem m "button" then
    match m "click" with
    | some cv => ddel (dset m "button" cv) "click"
    | none => m
  else m

def fixClick (aty : Option PyVal) (m : PyDict) : PyDict :=
  if optEqStr aty "click" then
    dset (clickFromAlias m) "button" (dgetD (clickFromAlias m) "button" (.str "left"))
  else m

def setScrollX (m : PyDict) : PyDict :=
  dset m "scroll_x" (dgetD m "scroll_x" (.int 0))

def fixScroll (aty : Option PyVal) (m : PyDict) : PyDict :=
  if optEqStr aty "scroll" then
    dset (setScrollX m) "scroll_y" (dgetD (setScrollX m) "scroll_y" (.int 0))
  else m

def keysAliases : List String := ["keypress", "key", "press", "key_press", "text"]

/-- One iteration of `for keys_alias in [...]`. -/
def keysAlias1 (al : String) (m : PyDict) : PyDict :=
  match m al with
  | some v => ddel (dset m "keys" v) al
  | none => m

/-- `keys.replace("-", "+").split("+") if len(keys) > 1 else [keys]`. -/
def pySplitKeys (s : String) : PyVal :=
  if s.length > 1 then .list (((s.replace "-" "+").splitOn "+").map PyVal.str)
  else .list [.str s]

/-- `if isinstance(keys, str): action["keys"] = ...`. -/
def fixKeysStr (m : PyDict) : PyDict :=
  match m "keys" with
  | some (.str s) => dset m "keys" (pySplitKeys s)
  | _ => m

def fixKeypress (aty : Option PyVal) (m : PyDict) : PyDict :=
  if optEqStr aty "keypress" then
    fixKeysStr (keysAliases.foldl (fun m al => keysAlias1 al m) m)
  else m

/-- The `required_keys_by_type` table. -/
def requiredKeysByType (s : String) : Option (List String) :=
  match s with
  | "click" => some ["type", "button", "x", "y"]
  | "double_click" => some ["type", "x", "y"]
  | "drag" => some ["type", "path"]
  | "keypress" => some ["type", "keys"]
  | "move" => some ["type", "x", "y"]
  | "screenshot" => some ["type"]
  | "scroll" => some ["type", "scroll_x", "scroll_y", "x", "y"]
  | "type" => some ["type", "text"]
  | "wait" => some ["type"]
  | "left_mouse_down" => some ["type", "x", "y"]
  | "left_mouse_up" => some ["type", "x", "y"]
  | "triple_click" => some ["type", "button", "x", "y"]
  | _ => none

/-- `required_keys_by_type.get(action_type or "")`: a falsy or non-string
`action_type` looks up `""`, which is not in the table. -/
def keepForType (aty : Option PyVal) : Option (List String) :=
  match aty with
  | some (.str s) => requiredKeysByType s
  | _ => none

def stripKeys (aty : Option PyVal) (m : PyDict) : PyDict :=
  match keepForType aty with
  | some ks => keepOnly m ks
  | none => m

/-- Everything after `action_type` is read (source order preserved). -/
def normalizeTail (aty : Option PyVal) (m4 : PyDict) : PyDict :=
  stripKeys aty (fixKeypress aty (fixScroll aty (fixClick aty m4)))

/-- The per-action body of `OperatorNormalizerCallback.on_llm_end`. -/
def normalizeAction (m0 : PyDict) : Except String PyDict :=
  match renameCoordinate (inferTypeFromKeys (renameKeyAliases (renameMouse m0))) with
  | .error e => .error e
  | .ok m4 =>
    .ok (normalizeTail ((inferTypeFromKeys (renameKeyAliases (renameMouse m0))) "type") m4)

/-- An output item, reduced to the fields `on_llm_end` reads: `item.get("type")`
and `item.get("action")`. Other fields are never touched. -/
structure OutItem where
  itemType : Option String
  action : Option PyVal

/-- One iteration of the `for item in output` loop. -/
def normalizeItem (it : OutItem) : Except String OutItem :=
  if it.itemType = some "computer_call" then
    match it.action with
    | some (.dict m) =>
      match normalizeAction m with
      | .ok m2 => .ok { it with action := some (.dict m2) }
      | .error e => .error e
    | _ => .ok it
  else .ok it

/-- `OperatorNormalizerCallback.on_llm_end`: normalize each item in order;
the first Python exception propagates. -/
def on_llm_end : List OutItem → Except String (List OutItem)
  | [] => .ok []
  | it :: rest =>
    match normalizeItem it with
    | .error e => .error e
    | .ok it2 =>
      match on_llm_end rest with
      | .error e => .error e
      | .ok rest2 => .ok (it2 :: rest2)

/-- The S4 scenario input `{type: "left_click", coordinate: [50, 60]}`. -/
def c6_input : PyDict := fun k =>
  if k = "type" then some (.str "left_click")
  else if k = "coordinate" then some (.list [.int 50, .int 60])
  else none

/-- The S4 expected action `{type: "click", button: "left", x: 50, y: 60}`. -/
def c6_expected : PyDict := fun k =>
  if k = "type" then some (.str "click")
  else if k = "button" then some (.str "left")
  else if k = "x" then some (.int 50)
  else if k = "y" then some (.int 60)
  else none

/-- The canonical action types (the table's keys). -/
def canonicalActionTypes : List String :=
  ["click", "double_click", "drag", "keypress", "move", "screenshot", "scroll",
   "type", "wait", "left_mouse_down", "left_mouse_up", "triple_click"]

/-! ## Coordinate rescaling (qwen.py, gemini.py, internvl.py, holo.py)

Python floats are modelled as `ℚ`; `round` is Python 3's banker's rounding. -/

/-- Python `max` on two floats (kernel-computable). -/
def pyMax (a b : ℚ) : ℚ := if a ≤ b then b else a

/-- Python `min` on two floats (kernel-computable). -/
def pyMin (a b : ℚ) : ℚ := if a ≤ b then a else b

/-- Python `max` on two ints (kernel-computable). -/
def pyMaxI (a b : ℤ) : ℤ := if a ≤ b then b else a

/-- Python `min` on two ints (kernel-computable). -/
def pyMinI (a b : ℤ) : ℤ := if a ≤ b then a else b

/-- Python 3 `round`: nearest integer, ties to the even integer. -/
def pyRound (q : ℚ) : ℤ :=
  let f := ⌊q⌋
  let r := q - f
  if r < 1 / 2 then f
  else if 1 / 2 < r then f + 1
  else if f % 2 = 0 then f else f + 1

/-- Python `int(x)` on a float: truncation toward zero. -/
def pyTrunc (q : ℚ) : ℤ := if 0 ≤ q then ⌊q⌋ else ⌈q⌉

/-- Python `float(v)` (numeric values only; `float(str)` is out of scope as
tool-call coordinates arrive as JSON numbers). -/
def pyFloat : PyVal → Except String ℚ
  | .int n => .ok n
  | .float q => .ok q
  | .bool b => .ok (if b then 1 else 0)
  | _ => .error "TypeError: float()"

/-- Python `int(v)` (numeric values only). -/
def pyInt : PyVal → Except String ℤ
  | .int n => .ok n
  | .float q => .ok (pyTrunc q)
  | .bool b => .ok (if b then 1 else 0)
  | _ => .error "TypeError: int()"

/-- One coordinate of qwen.py's unnormalization:
`max(0.0, min(dim, (v / 1000.0) * dim))`, then `round`. -/
def unnormCoord1 (v dim : ℚ) : ℤ := pyRound (pyMax 0 (pyMin dim (v / 1000 * dim)))

/-- qwen.py `_unnormalize_coordinate(args, dims)`: reads `dims` as
`(width, height)`, scales 0–1000 coordinates, clamps to `[0, dim]`, rounds,
and replaces `args["coordinate"]`.  A missing, falsy, non-list or too-short
coordinate returns `args` unchanged. -/
def unnormalize_coordinate (args : PyDict) (dims : ℚ × ℚ) : Except String PyDict :=
  match args "coordinate" with
  | some (.list l) =>
    if h2 : l.length < 2 then .ok args
    else
      match pyFloat (l.get ⟨0, by omega⟩), pyFloat (l.get ⟨1, by omega⟩) with
      | .ok x, .ok y =>
        .ok (dset args "coordinate"
          (.list [.int (unnormCoord1 x dims.1), .int (unnormCoord1 y dims.2)]))
      | .error e, _ => .error e
      | _, .error e => .error e
  | some _ => .ok args
  | none => .ok args

/-- The tail of `Qwen3VlConfig.predict_click` after the tool call is parsed:
`args = await _unnormalize_coordinate(args, (rh, rw))` — dims are passed as
`(rh, rw)`, i.e. resized height first — then
`int(coord[0]), int(coord[1])` when a coordinate pair is present. -/
def qwen_predict_click_coords (rh rw : ℚ) (args : PyDict) :
    Except String (Option (ℤ × ℤ)) :=
  match unnormalize_coordinate args (rh, rw) with
  | .error e => .error e
  | .ok args2 =>
    match args2 "coordinate" with
    | some (.list l) =>
      if h2 : l.length < 2 then .ok none
      else
        match pyInt (l.get ⟨0, by omega⟩), pyInt (l.get ⟨1, by omega⟩) with
        | .ok a, .ok b => .ok (some (a, b))
        | .error e, _ => .error e
        | _, .error e => .error e
    | _ => .ok none

/-- `Qwen3VlConfig.predict_step`'s call site:
`_unnormalize_coordinate(raw_args, (last_rw, last_rh))` — width first. -/
def qwen_predict_step_unnormalize (last_rw last_rh : ℚ) (args : PyDict) :
    Except String PyDict :=
  unnormalize_coordinate args (last_rw, last_rh)

/-- gemini.py `_denormalize`: `max(0, min(size - 1, int(round(v / 1000 * size))))`. -/
def denormalize (v : ℤ) (size : ℕ) : ℤ :=
  pyMaxI 0 (pyMinI ((size : ℤ) - 1) (pyRound ((v : ℚ) / 1000 * (size : ℚ))))

/-- internvl.py `_scale_norm_to_pixels`: floor of the 0–1000 scaling, clamped
to `[0, dim - 1]`. -/
def scale_norm_to_pixels (x_norm y_norm : ℚ) (width height : ℕ) : ℤ × ℤ :=
  let x_px := ⌊x_norm / 1000 * (width : ℚ)⌋
  let y_px := ⌊y_norm / 1000 * (height : ℚ)⌋
  (pyMaxI 0 (pyMinI ((width : ℤ) - 1) x_px), pyMaxI 0 (pyMinI ((height : ℤ) - 1) y_px))

/-- The tail of `HoloConfig.predict_click` after `_parse_click_json`: rescale
from the processed image size back to the original (`except Exception: pass`
keeps the raw values when a processed dimension is zero), then clamp both
coordinates to the original image bounds. -/
def holo_finalize (origW origH procW procH : ℕ) (x y : ℤ) : ℤ × ℤ :=
  let xy : ℤ × ℤ :=
    if (procW, procH) ≠ (origW, origH) then
      if procW ≠ 0 ∧ procH ≠ 0 then
        (pyRound ((x : ℚ) * (origW : ℚ) / (procW : ℚ)),
         pyRound ((y : ℚ) * (origH : ℚ) / (procH : ℚ)))
      else (x, y)
    else (x, y)
  (pyMaxI 0 (pyMinI ((origW : ℤ) - 1) xy.1), pyMaxI 0 (pyMinI ((origH : ℤ) - 1) xy.2))

/-- The rescaling rule in the claim's words: x mapped to `(x/1000)·width` and
y to `(y/1000)·height`, clamped to the screen bounds (Qwen's clamp-and-round
convention). Stated only to exhibit the divergence of `predict_click`. -/
def claimRescale (x y w h : ℚ) : ℤ × ℤ :=
  (pyRound (pyMax 0 (pyMin w (x / 1000 * w))), pyRound (pyMax 0 (pyMin h (y / 1000 * h))))

/-- A parsed Qwen tool call `{"action": "left_click", "coordinate": [500, 500]}`. -/
def c3_args : PyDict := fun k =>
  if k = "action" then some (.str "left_click")
  else if k = "coordinate" then some (.list [.int 500, .int 500])
  else none

/-! ## Grounder-only `predict_step` delegation (internvl.py, opencua.py)

`composed_grounded.py` (`ComposedGroundedConfig.predict_step`) is not among
the provided sources — only its subclasses and callers are — so the composed
strategy is kept abstract: a function of the model string and of the bundled
remaining arguments. -/

/-- The non-model arguments of `predict_step`, forwarded verbatim by both
subclasses (`messages`, `tools`, `max_retries`, `stream`, `computer_handler`,
the `_on_*` hooks and `**kwargs`). -/
structure StepArgs (Handler Hooks Kwargs : Type) where
  messages : List PyVal
  tools : Option (List PyVal)
  max_retries : Option Nat
  stream : Bool
  computer_handler : Handler
  hooks : Hooks
  kwargs : Kwargs

/-- Modelled from the spec: `ComposedGroundedConfig.predict_step`, the
composed planner+grounder one-turn strategy of spec §4.6 D (model string
`"<planner>+<grounder>"`); composed_grounded.py itself is missing from the
sources, and only its call interface matters for the delegation claim. -/
def ComposedStep (Handler Hooks Kwargs R : Type) : Type :=
  String → StepArgs Handler Hooks Kwargs → R

/-- internvl.py `InternVLConfig.predict_step`: "Fallback to a self-composed
model" — `super().predict_step(..., model=f"{model}+{model}", ...)` with all
other arguments passed through unchanged. -/
def internvl_predict_step {Handler Hooks Kwargs R : Type}
    (composed : ComposedStep Handler Hooks Kwargs R) (model : String)
    (args : StepArgs Handler Hooks Kwargs) : R :=
  composed (model ++ "+" ++ model) args

/-- opencua.py `OpenCUAConfig.predict_step`: the identical delegation. -/
def opencua_predict_step {Handler Hooks Kwargs R : Type}
    (composed : ComposedStep Handler Hooks Kwargs R) (model : String)
    (args : StepArgs Handler Hooks Kwargs) : R :=
  composed (model ++ "+" ++ model) args

/-! ## Proxy responses handler (proxy/handlers.py) -/

/-- The `input` field of a `/responses` request body: a string, a list of
message dicts, or some other JSON value (rejected by the converter). -/
inductive ProxyInput where
  | text : String → ProxyInput
  | items : List PyVal → ProxyInput
  | other : ProxyInput

structure ProxyRequest where
  model : Option String
  input : Option ProxyInput

/-- Python truthiness of the `model` field (`if not model`). -/
def modelTruthy : Option String → Bool
  | none => false
  | some s => !(s == "")

/-- Python truthiness of the `input` field (`if not input_data`); a non-str,
non-list object is truthy. -/
def inputTruthy : Option ProxyInput → Bool
  | none => false
  | some (.text s) => !(s == "")
  | some (.items l) => !l.isEmpty
  | some .other => true

/-- One content part of `_convert_input_to_messages`' inner loop:
`input_text` → `{type: "text", text}`, `input_image` → `{type: "image_url",
image_url: {url}}`, anything else appended unchanged; a missing sub-key is a
`KeyError`, a non-dict part an `AttributeError`. -/
def convertPart (p : PyVal) : Except String PyVal :=
  match p with
  | .dict pm =>
    match pm "type" with
    | some (.str "input_text") =>
      match pm "text" with
      | some t => .ok (.dict (fun k =>
          if k = "type" then some (.str "text")
          else if k = "text" then some t
          else none))
      | none => .error "KeyError: text"
    | some (.str "input_image") =>
      match pm "image_url" with
      | some u => .ok (.dict (fun k =>
          if k = "type" then some (.str "image_url")
          else if k = "image_url" then
            some (.dict (fun q => if q = "url" then some u else none))
          else none))
      | none => .error "KeyError: image_url"
    | _ => .ok p
  | _ => .error "AttributeError"

/-- One message of a list-shaped input: content arrays are converted
part-by-part; other messages are appended unchanged. -/
def convertMsg (v : PyVal) : Except String PyVal :=
  match v with
  | .dict m =>
    match m "content" with
    | some (.list parts) =>
      match parts.mapM convertPart, m "role" with
      | .ok parts2, some r =>
        .ok (.dict (fun k =>
          if k = "role" then some r
          else if k = "content" then some (.list parts2)
          else none))
      | .error e, _ => .error e
      | _, none => .error "KeyError: role"
    | _ => .ok v
  | _ => .error "AttributeError"

/-- `ResponsesHandler._convert_input_to_messages`. -/
def convert_input_to_messages : ProxyInput → Except String (List PyVal)
  | .text s => .ok [.dict (fun k =>
      if k = "role" then some (.str "user")
      else if k = "content" then some (.str s)
      else none)]
  | .items l => l.mapM convertMsg
  | .other => .error "Input must be string or list of messages"

/-- The JSON response dictionary shape (absent keys as `none`). -/
structure ProxyResponse where
  success : Bool
  result : Option PyVal
  error : Option String
  model : Option String

/-- The `except` clause's return value:
`{"success": False, "error": str(e), "model": request_data.get("model", "unknown")}`. -/
def errorResponse (e : String) (req : ProxyRequest) : ProxyResponse :=
  { success := false, result := none, error := some e,
    model := some (req.model.getD "unknown") }

/-- `ResponsesHandler.process_request`.  The effectful collaborators are
passed in: `setup` stands for `setup_computer_agent(...)`, `run` for the
`agent.run(messages)` iteration — `.ok rs` lists the results the generator
would yield in order, `.error e` a raised exception; `async for ... return`
consumes only the head.  Raised exceptions land in the single `except` clause
producing `errorResponse`. -/
def process_request (req : ProxyRequest) (setup : Except String Unit)
    (run : Except String (List PyVal)) : ProxyResponse :=
  match req.model with
  | none => errorResponse "Model is required" req
  | some m =>
    if m = "" then errorResponse "Model is required" req
    else
      match req.input with
      | none => errorResponse "Input is required" req
      | some iv =>
        if inputTruthy (some iv) then
          match setup with
          | .error e => errorResponse e req
          | .ok _ =>
            match convert_input_to_messages iv with
            | .error e => errorResponse e req
            | .ok _msgs =>
              match run with
              | .error e => errorResponse e req
              | .ok [] =>
                { success := false, result := none,
                  error := some "No results from agent", model := some m }
              | .ok (r :: _) =>
                { success := true, result := some r, error := none,
                  model := some m }
        else errorResponse "Input is required" req

/-- A concrete request for the C7 witness. -/
def c7req : ProxyRequest := ⟨some "gpt-test", some (.text "click the button")⟩

/-! ## Telemetry enablement (core/telemetry/telemetry.py) -/

abbrev EnvMap := String → Option String

/-- `os.environ.get(k, d)`. -/
def envGetD (env : EnvMap) (k d : String) : String := (env k).getD d

/-- Python `str.lower()` (ASCII case mapping, which covers the compared
values; `String.toLower` itself is not kernel-reducible). -/
def pyLower (s : String) : String := String.mk (s.data.map Char.toLower)

/-- `_telemetry_disabled`: the legacy `CUA_TELEMETRY=off` flag, or
`CUA_TELEMETRY_ENABLED` (default `"true"`) not in the accepted set. -/
def telemetry_disabled (env : EnvMap) : Bool :=
  (pyLower (envGetD env "CUA_TELEMETRY" "") == "off")
    || !(["1", "true", "yes", "on"].contains
          (pyLower (envGetD env "CUA_TELEMETRY_ENABLED" "true")))

/-- The module globals `_CLIENT` and `_ENABLED`. -/
structure TelemetryState where
  client : Option Unit
  enabled : Bool

/-- `_ensure_client`: `posthog` abstracts `get_posthog_telemetry_client` —
`none` when the import failed, `some (.error e)` when construction raised,
`some (.ok c)` on success. -/
def ensure_client (env : EnvMap) (posthog : Option (Except String Unit))
    (st : TelemetryState) : TelemetryState :=
  if st.client.isSome || telemetry_disabled env then st
  else
    match posthog with
    | none => st
    | some (.error _) => { client := none, enabled := false }
    | some (.ok c) => { client := some c, enabled := true }

/-- `is_telemetry_enabled`: `_ensure_client()` then
`_ENABLED and not _telemetry_disabled()`. -/
def is_telemetry_enabled (env : EnvMap) (posthog : Option (Except String Unit))
    (st : TelemetryState) : Bool :=
  (ensure_client env posthog st).enabled && !telemetry_disabled env

/-- The claim's wording of "telemetry is treated as disabled". -/
def claimTelemetryDisabled (env : EnvMap) : Prop :=
  (match env "CUA_TELEMETRY" with
   | some s => pyLower s = "off"
   | none => False)
  ∨ ¬ (pyLower ((env "CUA_TELEMETRY_ENABLED").getD "true") ∈ ["1", "true", "yes", "on"])

/-- An environment with telemetry switched off for the C8 witness. -/
def c8env : EnvMap := fun k => if k = "CUA_TELEMETRY" then some "OFF" else none

/-! ## Per-request environment overrides
(`ResponsesHandler._env_overrides`, proxy/handlers.py) -/

/-- `os.environ.pop(k, None)` as a map update. -/
def envDel (e : EnvMap) (k : String) : EnvMap :=
  fun q => if q = k then none else e q

/-- `os.environ[k] = v`. -/
def envSet (e : EnvMap) (k v : String) : EnvMap :=
  fun q => if q = k then some v else e q

/-- The apply loop: record each variable's prior value in `original` (in
iteration order), then overwrite it; returns `original` and the updated
environment. -/
def applyOverrides : List (String × String) → EnvMap →
    List (String × Option String) × EnvMap
  | [], e => ([], e)
  | (k, v) :: rest, e =>
    ((k, e k) :: (applyOverrides rest (envSet e k v)).1,
     (applyOverrides rest (envSet e k v)).2)

/-- One restore step: `if old is None: os.environ.pop(k, None) else:
os.environ[k] = old`. -/
def envSetOpt (e : EnvMap) (k : String) (old : Option String) : EnvMap :=
  match old with
  | none => envDel e k
  | some s => envSet e k s

/-- The `finally` loop: restore every recorded variable (delete the ones that
were unset, reset the others). -/
def restoreOverrides : List (String × Option String) → EnvMap → EnvMap
  | [], e => e
  | (k, old) :: rest, e => restoreOverrides rest (envSetOpt e k old)

/-- `_env_overrides(env)` as a whole: an empty mapping short-circuits
(`if not env: yield; return`); otherwise apply, run the body (which may itself
change the environment and may raise — the second component), and restore in
a `finally`. -/
def env_overrides_run (ov : List (String × String))
    (body : EnvMap → EnvMap × Option String) (e : EnvMap) :
    EnvMap × Option String :=
  if ov.isEmpty then body e
  else
    (restoreOverrides (applyOverrides ov e).1 (body (applyOverrides ov e).2).1,
     (body (applyOverrides ov e).2).2)

/-- Witness fixtures for the override context manager. -/
def c10ov : List (String × String) := [("CUA_API_KEY", "k2"), ("EXTRA_VAR", "x")]

def c10env : EnvMap := fun k => if k = "CUA_API_KEY" then some "k1" else none

/-- A body that itself mutates the environment and raises. -/
def c10body : EnvMap → EnvMap × Option String :=
  fun e => (envSet e "SIDE_EFFECT" "1", some "RuntimeError")

/-! ## Theorems about image retention -/

theorem filter_isImageOutput_eq (msgs : List Msg) :
    msgs.filter isImageOutput
      = (msgs.enum.filter fun p => isImageOutput p.2).map Prod.snd := by
  conv_lhs => rw [← List.enum_map_snd msgs, List.filter_map]
  rfl

theorem nodup_outputIndices (msgs : List Msg) : (outputIndices msgs).Nodup := by
  have hsub : List.Sublist
      ((msgs.enum.filter fun p => isImageOutput p.2).map Prod.fst)
      (msgs.enum.map Prod.fst) := (List.filter_sublist _).map _
  exact List.Nodup.sublist hsub (List.nodup_enum_map_fst msgs)

theorem filter_not_contains_drop (l : List Nat) (h : l.Nodup) (k : Nat) :
    (l.filter fun i => !((l.drop k).contains i)) = l.take k := by
  have hdisj : List.Disjoint (l.take k) (l.drop k) := List.disjoint_take_drop h le_rfl
  have e : (l.filter fun i => !((l.drop k).contains i))
      = ((l.take k ++ l.drop k).filter fun i => !((l.drop k).contains i)) := by
    rw [List.take_append_drop]
  rw [e, List.filter_append]
  have h1 : (l.take k).filter (fun i => !((l.drop k).contains i)) = l.take k := by
    apply List.filter_eq_self.mpr
    intro a ha
    have hnot : a ∉ l.drop k := fun hdm => hdisj ha hdm
    simpa using hnot
  have h2 : (l.drop k).filter (fun i => !((l.drop k).contains i)) = [] := by
    apply List.filter_eq_nil_iff.mpr
    intro a ha
    simp [ha]
  rw [h1, h2, List.append_nil]

theorem filter_keys_take_drop (L : List (Nat × Msg)) :
    ∀ k : Nat, (L.map Prod.fst).Nodup →
      (L.filter fun p => !(((L.map Prod.fst).take k).contains p.1)) = L.drop k := by
  induction L with
  | nil => intro k _; simp
  | cons a t ih =>
    intro k hnd
    simp only [List.map_cons] at hnd
    have hhead : a.1 ∉ t.map Prod.fst := (List.nodup_cons.mp hnd).1
    have htail : (t.map Prod.fst).Nodup := (List.nodup_cons.mp hnd).2
    match k with
    | 0 =>
      simp
    | Nat.succ k =>
      have hmap : (a :: t).map Prod.fst = a.1 :: t.map Prod.fst := rfl
      rw [hmap, List.take_succ_cons, List.filter_cons]
      have hcond : (!((a.1 :: (t.map Prod.fst).take k).contains a.1)) = false := by
        simp [List.contains_cons]
      rw [hcond]
      have hcg : (t.filter fun p => !((a.1 :: (t.map Prod.fst).take k).contains p.1))
          = (t.filter fun p => !(((t.map Prod.fst).take k).contains p.1)) := by
        apply List.filter_congr
        intro p hp
        have hne : p.1 ≠ a.1 := by
          intro hee
          exact hhead (hee ▸ List.mem_map_of_mem Prod.fst hp)
        simp [List.contains_cons, hne]
      simp only [Bool.false_eq_true, if_false]
      rw [hcg, ih k htail, List.drop_succ_cons]

theorem removalReasoning_mem {msgs : List Msg} {pidx i : Nat}
    (h : i ∈ removalReasoning msgs pidx) :
    ∃ rm, msgs[i]? = some rm ∧ rm.type = some "reasoning" := by
  unfold removalReasoning at h
  split at h
  · simp at h
  · split at h
    · split at h
      · rename_i rm hm ht
        rcases List.mem_singleton.mp h with rfl
        exact ⟨rm, hm, ht⟩
      · simp at h
    · simp at h

theorem removalPrev_mem {msgs : List Msg} {idx i : Nat}
    (h : i ∈ removalPrev msgs idx) :
    (∃ pm, msgs[i]? = some pm ∧ pm.type = some "computer_call") ∨
      (∃ rm, msgs[i]? = some rm ∧ rm.type = some "reasoning") := by
  unfold removalPrev at h
  split at h
  · simp at h
  · split at h
    · split at h
      · rename_i m pm hm hpm hcond
        rcases List.mem_cons.mp h with rfl | hh
        · exact Or.inl ⟨pm, hpm, hcond.1⟩
        · exact Or.inr (removalReasoning_mem hh)
      · simp at h
    · simp at h

theorem removeSet_contains_eq {msgs : List Msg} {n : Nat} {p : Nat × Msg}
    (hp : p ∈ msgs.enum) (hio : isImageOutput p.2 = true) :
    ((removeSet msgs n).contains p.1) = ((evictIndices msgs n).contains p.1) := by
  have hiff : p.1 ∈ removeSet msgs n ↔ p.1 ∈ evictIndices msgs n := by
    constructor
    · intro h
      rcases List.mem_flatMap.mp h with ⟨j, hj, hg⟩
      rcases List.mem_cons.mp hg with rfl | hprev
      · exact hj
      · exfalso
        have hpe : msgs[p.1]? = some p.2 := List.mem_enum_iff_getElem?.mp hp
        rcases removalPrev_mem hprev with ⟨pm, hpm, ht⟩ | ⟨rm, hrm, ht⟩
        · rw [hpe] at hpm
          rcases Option.some.injEq .. ▸ hpm with rfl
          simp [isImageOutput, ht] at hio
        · rw [hpe] at hrm
          rcases Option.some.injEq .. ▸ hrm with rfl
          simp [isImageOutput, ht] at hio
    · intro h
      exact List.mem_flatMap.mpr ⟨p.1, h, List.mem_cons_self _ _⟩
  by_cases h1 : p.1 ∈ removeSet msgs n
  · have h2 : p.1 ∈ evictIndices msgs n := hiff.mp h1
    simp [h1, h2]
  · have h2 : p.1 ∉ evictIndices msgs n := fun hh => h1 (hiff.mpr hh)
    simp [h1, h2]

/-- C1 (amended to `1 ≤ n`): for a configured positive `n`, `on_llm_start`
keeps exactly the `n` most recent `computer_call_output` items with images
(the `drop` of all earlier ones), and in particular at most `n` remain. -/
theorem image_retention_keeps_most_recent (n : Nat) (hn : 1 ≤ n) (msgs : List Msg) :
    (on_llm_start (some n) msgs).filter isImageOutput
        = (msgs.filter isImageOutput).drop ((msgs.filter isImageOutput).length - n)
      ∧ ((on_llm_start (some n) msgs).filter isImageOutput).length ≤ n := by
  have hF := filter_isImageOutput_eq msgs
  have hcount : (msgs.filter isImageOutput).length = (outputIndices msgs).length := by
    rw [hF]; unfold outputIndices; simp
  have hred : on_llm_start (some n) msgs = applyImageRetention n msgs := rfl
  rw [hred]
  by_cases hle : (outputIndices msgs).length ≤ n
  · have hz : (msgs.filter isImageOutput).length - n = 0 := by omega
    rw [applyImageRetention, if_pos hle, hz, List.drop_zero]
    exact ⟨rfl, by omega⟩
  · have hlt : n < (outputIndices msgs).length := by omega
    have he : pyTailSlice (outputIndices msgs) n
        = (outputIndices msgs).drop ((outputIndices msgs).length - n) := by
      rw [pyTailSlice, if_neg (by omega)]
    have hevict : evictIndices msgs n
        = (outputIndices msgs).take ((outputIndices msgs).length - n) := by
      rw [evictIndices]
      rw [he]
      exact filter_not_contains_drop _ (nodup_outputIndices msgs) _
    rw [applyImageRetention, if_neg hle]
    have hstep : ((retainedEnum msgs n).map Prod.snd).filter isImageOutput
        = ((msgs.enum.filter fun p => isImageOutput p.2).drop
            ((outputIndices msgs).length - n)).map Prod.snd := by
      rw [List.filter_map, retainedEnum, List.filter_filter]
      have hcg : (msgs.enum.filter fun p =>
            (isImageOutput ∘ Prod.snd) p && !((removeSet msgs n).contains p.1))
          = (msgs.enum.filter fun p =>
            (!(((outputIndices msgs).take ((outputIndices msgs).length - n)).contains p.1))
              && isImageOutput p.2) := by
        apply List.filter_congr
        intro p hp
        by_cases hio : isImageOutput p.2 = true
        · have hc := removeSet_contains_eq (n := n) hp hio
          rw [hevict] at hc
          rw [show (isImageOutput ∘ Prod.snd) p = isImageOutput p.2 from rfl, hc,
            Bool.and_comm]
        · have hio' : isImageOutput p.2 = false := by
            revert hio; cases isImageOutput p.2 <;> simp
          rw [show (isImageOutput ∘ Prod.snd) p = isImageOutput p.2 from rfl, hio']
          simp
      rw [hcg, ← List.filter_filter]
      have : (msgs.enum.filter fun p => isImageOutput p.2).filter
            (fun p =>
              !(((outputIndices msgs).take ((outputIndices msgs).length - n)).contains p.1))
          = (msgs.enum.filter fun p => isImageOutput p.2).drop
              ((outputIndices msgs).length - n) :=
        filter_keys_take_drop _ _ (nodup_outputIndices msgs)
      rw [this]
    constructor
    · rw [hstep, List.map_drop, ← hF, hcount]
    · rw [hstep]
      simp only [List.length_map, List.length_drop]
      have : (msgs.enum.filter fun p => isImageOutput p.2).length
          = (outputIndices msgs).length := by
        unfold outputIndices; simp
      omega

/-- C1 counterexample: with `only_n_most_recent_images = 0` the Python slice
`output_indices[-0:]` is the whole list, so nothing is evicted and one image
output remains, violating "at most N" at `N = 0`. -/
theorem image_retention_zero_counterexample :
    ¬ (((on_llm_start (some 0) [ccoA]).filter isImageOutput).length ≤ 0) := by
  decide

/-- C1 witness at `n = 1`. -/
theorem image_retention_keeps_most_recent_witness :
    1 ≤ 1 ∧
      ((on_llm_start (some 1) c4adj).filter isImageOutput
          = (c4adj.filter isImageOutput).drop ((c4adj.filter isImageOutput).length - 1)
        ∧ ((on_llm_start (some 1) c4adj).filter isImageOutput).length ≤ 1) :=
  ⟨by decide, image_retention_keeps_most_recent 1 (by decide) c4adj⟩

theorem not_mem_retained {msgs : List Msg} {n j : Nat} (h : j ∈ removeSet msgs n) :
    ∀ q ∈ retainedEnum msgs n, q.1 ≠ j := by
  intro q hq hqe
  have := (List.mem_filter.mp hq).2
  rw [hqe] at this
  simp [h] at this

/-- C4 (amended): when an evicted output's *immediately preceding* item is a
`computer_call` with the same `call_id`, that `computer_call` is evicted too,
along with a `reasoning` item immediately before it; non-adjacent pairs are
not covered (see the counterexample). -/
theorem retention_evicts_adjacent_pair (n : Nat) (msgs : List Msg) (pidx : Nat)
    (m pm : Msg)
    (hm : msgs[pidx + 1]? = some m)
    (hp : msgs[pidx]? = some pm)
    (he : (pidx + 1) ∈ evictIndices msgs n)
    (ht : pm.type = some "computer_call")
    (hc : pm.callId = m.callId) :
    (pidx ∈ removeSet msgs n ∧ ∀ q ∈ retainedEnum msgs n, q.1 ≠ pidx)
      ∧ ∀ ridx rm, pidx = ridx + 1 → msgs[ridx]? = some rm →
          rm.type = some "reasoning" →
          ridx ∈ removeSet msgs n ∧ ∀ q ∈ retainedEnum msgs n, q.1 ≠ ridx := by
  have hprev : ∀ x ∈ pidx :: removalReasoning msgs pidx, x ∈ removalPrev msgs (pidx + 1) := by
    intro x hx
    have hrw : removalPrev msgs (pidx + 1)
        = match msgs[pidx + 1]?, msgs[pidx]? with
          | some m, some pm =>
            if pm.type = some "computer_call" ∧ pm.callId = m.callId then
              pidx :: removalReasoning msgs pidx
            else []
          | _, _ => [] := rfl
    rw [hrw, hm, hp]
    show x ∈ (if pm.type = some "computer_call" ∧ pm.callId = m.callId then
      pidx :: removalReasoning msgs pidx else [])
    rw [if_pos ⟨ht, hc⟩]
    exact hx
  have hgroup : ∀ x ∈ pidx :: removalReasoning msgs pidx, x ∈ removeSet msgs n := by
    intro x hx
    exact List.mem_flatMap.mpr
      ⟨pidx + 1, he, List.mem_cons_of_mem _ (hprev x hx)⟩
  have hpm : pidx ∈ removeSet msgs n := hgroup pidx (List.mem_cons_self _ _)
  refine ⟨⟨hpm, not_mem_retained hpm⟩, ?_⟩
  intro ridx rm hpe hrm hrt
  have hr : ridx ∈ removalReasoning msgs pidx := by
    subst hpe
    have hrw : removalReasoning msgs (ridx + 1)
        = match msgs[ridx]? with
          | some rm => if rm.type = some "reasoning" then [ridx] else []
          | none => [] := rfl
    rw [hrw, hrm]
    show ridx ∈ (if rm.type = some "reasoning" then [ridx] else [])
    rw [if_pos hrt]
    exact List.mem_singleton.mpr rfl
  have hrm' : ridx ∈ removeSet msgs n := hgroup ridx (List.mem_cons_of_mem _ hr)
  exact ⟨hrm', not_mem_retained hrm'⟩

/-- C4 counterexample: in `c4ex` the output at index 2 is evicted while its
paired `computer_call` (call_id "a", index 0, not adjacent) survives. -/
theorem retention_orphan_counterexample :
    ccoA ∉ applyImageRetention 1 c4ex ∧ ccA ∈ applyImageRetention 1 c4ex := by
  decide

/-! ## Theorems about the operator normalizer -/

theorem dset_apply (m : PyDict) (k : String) (v : PyVal) : dset m k v k = some v := by
  simp [dset]

theorem dset_apply_ne {q k : String} (m : PyDict) (v : PyVal) (h : q ≠ k) :
    dset m k v q = m q := by
  simp [dset, h]

theorem ddel_apply (m : PyDict) (k : String) : ddel m k k = none := by
  simp [ddel]

theorem ddel_apply_ne {q k : String} (m : PyDict) (h : q ≠ k) : ddel m k q = m q := by
  simp [ddel, h]

theorem dset_self {m : PyDict} {k : String} {v : PyVal} (h : m k = some v) :
    dset m k v = m := by
  funext q
  by_cases hq : q = k
  · subst hq; rw [dset_apply, h]
  · rw [dset_apply_ne _ _ hq]

theorem keepOnly_apply_mem {ks : List String} {k : String} (m : PyDict)
    (h : ks.contains k = true) : keepOnly m ks k = m k := by
  unfold keepOnly
  rw [h]
  simp

theorem keepOnly_apply_not_mem {ks : List String} {k : String} (m : PyDict)
    (h : ks.contains k = false) : keepOnly m ks k = none := by
  unfold keepOnly
  rw [h]
  simp

theorem keepOnly_idem (m : PyDict) (ks : List String) :
    keepOnly (keepOnly m ks) ks = keepOnly m ks := by
  funext q
  by_cases h : ks.contains q
  · rw [keepOnly_apply_mem _ h]
  · rw [keepOnly_apply_not_mem _ (by simpa using h),
      keepOnly_apply_not_mem _ (by simpa using h)]

theorem foldl_dict_apply {β : Type} (f : β → PyDict → PyDict) (l : List β) (k : String)
    (hf : ∀ b ∈ l, ∀ m, f b m k = m k) :
    ∀ m, (l.foldl (fun m b => f b m) m) k = m k := by
  induction l with
  | nil => intro m; rfl
  | cons b t ih =>
    intro m
    rw [List.foldl_cons, ih (fun b hb m => hf b (List.mem_cons_of_mem _ hb) m),
      hf b (List.mem_cons_self _ _)]

theorem foldl_dict_id {β : Type} (f : β → PyDict → PyDict) (l : List β) (m : PyDict)
    (hf : ∀ b ∈ l, f b m = m) : l.foldl (fun m b => f b m) m = m := by
  induction l with
  | nil => rfl
  | cons b t ih =>
    rw [List.foldl_cons, hf b (List.mem_cons_self _ _)]
    exact ih (fun b hb => hf b (List.mem_cons_of_mem _ hb))

theorem mouseRename1_apply {k : String} (b : String) (m : PyDict)
    (h1 : k ≠ "type") (h2 : k ≠ "button") : mouseRename1 b m k = m k := by
  unfold mouseRename1
  split
  · rw [dset_apply_ne _ _ h2, dset_apply_ne _ _ h1]
  · rfl

theorem renameMouse_apply {k : String} (m : PyDict)
    (h1 : k ≠ "type") (h2 : k ≠ "button") : renameMouse m k = m k :=
  foldl_dict_apply _ _ _ (fun b _ m => mouseRename1_apply b m h1 h2) m

theorem aliasRename1_apply {k : String} (al : String) (m : PyDict)
    (h1 : k ≠ "type") : aliasRename1 al m k = m k := by
  unfold aliasRename1
  split
  · rw [dset_apply_ne _ _ h1]
  · rfl

theorem renameKeyAliases_apply {k : String} (m : PyDict)
    (h1 : k ≠ "type") : renameKeyAliases m k = m k :=
  foldl_dict_apply _ _ _ (fun al _ m => aliasRename1_apply al m h1) m

theorem inferClick1_apply {k : String} (m : PyDict) (h1 : k ≠ "type") :
    inferClick1 m k = m k := by
  unfold inferClick1; split
  · rw [dset_apply_ne _ _ h1]
  · rfl

theorem inferClick2_apply {k : String} (m : PyDict) (h1 : k ≠ "type") :
    inferClick2 m k = m k := by
  unfold inferClick2; split
  · rw [dset_apply_ne _ _ h1]
  · rfl

theorem inferScroll_apply {k : String} (m : PyDict) (h1 : k ≠ "type") :
    inferScroll m k = m k := by
  unfold inferScroll; split
  · rw [dset_apply_ne _ _ h1]
  · rfl

theorem inferText_apply {k : String} (m : PyDict) (h1 : k ≠ "type") :
    inferText m k = m k := by
  unfold inferText; split
  · rw [dset_apply_ne _ _ h1]
  · rfl

theorem inferTypeFromKeys_apply {k : String} (m : PyDict) (h1 : k ≠ "type") :
    inferTypeFromKeys m k = m k := by
  unfold inferTypeFromKeys
  rw [inferText_apply _ h1, inferScroll_apply _ h1, inferClick2_apply _ h1,
    inferClick1_apply _ h1]

theorem renameCoordinate_ok_apply {m m2 : PyDict} (h : renameCoordinate m = .ok m2)
    {k : String} (h1 : k ≠ "x") (h2 : k ≠ "y") (h3 : k ≠ "coordinate") :
    m2 k = m k := by
  unfold renameCoordinate at h
  split at h
  · split at h
    · cases h
    · split at h
      · cases h
      · cases h
        rw [ddel_apply_ne _ h3, dset_apply_ne _ _ h2, dset_apply_ne _ _ h1]
  · cases h; rfl

theorem renameCoordinate_ok_coordinate {m m2 : PyDict}
    (h : renameCoordinate m = .ok m2) : m2 "coordinate" = none := by
  unfold renameCoordinate at h
  split at h
  · split at h
    · cases h
    · split at h
      · cases h
      · cases h; exact ddel_apply _ _
  · rename_i hc
    cases h; exact hc

theorem renameCoordinate_none {m : PyDict} (h : m "coordinate" = none) :
    renameCoordinate m = .ok m := by
  unfold renameCoordinate
  rw [h]

theorem clickFromAlias_apply {k : String} (m : PyDict)
    (h1 : k ≠ "button") (h2 : k ≠ "click") : clickFromAlias m k = m k := by
  unfold clickFromAlias
  split
  · cases hc : m "click" with
    | some cv =>
      show ddel (dset m "button" cv) "click" k = m k
      rw [ddel_apply_ne _ h2, dset_apply_ne _ _ h1]
    | none => rfl
  · rfl

theorem fixClick_apply {k : String} (aty : Option PyVal) (m : PyDict)
    (h1 : k ≠ "button") (h2 : k ≠ "click") : fixClick aty m k = m k := by
  unfold fixClick
  split
  · rw [dset_apply_ne _ _ h1, clickFromAlias_apply _ h1 h2]
  · rfl

theorem setScrollX_apply {k : String} (m : PyDict) (h1 : k ≠ "scroll_x") :
    setScrollX m k = m k := by
  unfold setScrollX
  rw [dset_apply_ne _ _ h1]

theorem fixScroll_apply {k : String} (aty : Option PyVal) (m : PyDict)
    (h1 : k ≠ "scroll_x") (h2 : k ≠ "scroll_y") : fixScroll aty m k = m k := by
  unfold fixScroll
  split
  · rw [dset_apply_ne _ _ h2, setScrollX_apply _ h1]
  · rfl

theorem keysAlias1_apply {k : String} (al : String) (m : PyDict)
    (h1 : k ≠ "keys") (h2 : k ≠ al) : keysAlias1 al m k = m k := by
  unfold keysAlias1
  cases hc : m al with
  | some v =>
    show ddel (dset m "keys" v) al k = m k
    rw [ddel_apply_ne _ h2, dset_apply_ne _ _ h1]
  | none => rfl

theorem fixKeysStr_apply {k : String} (m : PyDict) (h1 : k ≠ "keys") :
    fixKeysStr m k = m k := by
  unfold fixKeysStr
  cases hc : m "keys" with
  | some v =>
    cases v with
    | str s =>
      show dset m "keys" (pySplitKeys s) k = m k
      rw [dset_apply_ne _ _ h1]
    | int n => rfl
    | bool b => rfl
    | float q => rfl
    | list l => rfl
    | dict d => rfl
  | none => rfl

theorem fixKeypress_apply {k : String} (aty : Option PyVal) (m : PyDict)
    (h1 : k ≠ "keys") (h2 : ∀ al ∈ keysAliases, k ≠ al) : fixKeypress aty m k = m k := by
  unfold fixKeypress
  split
  · rw [fixKeysStr_apply _ h1,
      foldl_dict_apply _ _ _ (fun al hal m => keysAlias1_apply al m h1 (h2 al hal)) m]
  · rfl

theorem dgetD_some {m : PyDict} {k : String} {v : PyVal} (d : PyVal)
    (h : m k = some v) : dgetD m k d = v := by
  rw [dgetD, h]; rfl

theorem dgetD_none {m : PyDict} {k : String} (d : PyVal) (h : m k = none) :
    dgetD m k d = d := by
  rw [dgetD, h]; rfl

theorem dgetD_dset (m : PyDict) (k : String) (v d : PyVal) :
    dgetD (dset m k v) k d = v := by
  rw [dgetD, dset_apply]; rfl

theorem click_ne_append (b : String) : ¬ (("click" : String) = b ++ "_click") := by
  intro h
  have hl : ("click" : String).length = b.length + ("_click" : String).length := by
    rw [h, String.length_append]
  have h5 : ("click" : String).length = 5 := rfl
  have h6 : ("_click" : String).length = 6 := rfl
  omega

theorem pyEqStr_click_append (b : String) :
    pyEqStr (.str "click") (b ++ "_click") = false := by
  show (("click" : String) == b ++ "_click") = false
  exact beq_eq_false_iff_ne.mpr (click_ne_append b)

theorem mouseRename1_fired_or_id (b : String) (m : PyDict) :
    (mouseRename1 b m) "type" = some (.str "click")
      ∨ (mouseRename1 b m = m
          ∧ pyEqStr (dgetD m "type" (.str "")) (b ++ "_click") = false) := by
  unfold mouseRename1
  split
  · left
    rw [dset_apply_ne _ _ (by decide), dset_apply]
  · right
    rename_i hcond
    exact ⟨rfl, by simpa using hcond⟩

theorem mouse_check_preserved (t : List String) (b : String) :
    ∀ m : PyDict, pyEqStr (dgetD m "type" (.str "")) (b ++ "_click") = false →
      pyEqStr (dgetD (t.foldl (fun m b2 => mouseRename1 b2 m) m) "type" (.str ""))
        (b ++ "_click") = false := by
  induction t with
  | nil => intro m h; exact h
  | cons b2 t2 ih =>
    intro m h
    rw [List.foldl_cons]
    apply ih
    rcases mouseRename1_fired_or_id b2 m with hf | ⟨hid, _⟩
    · rw [dgetD_some _ hf]
      exact pyEqStr_click_append b
    · rw [hid]; exact h

theorem mouse_fold_clean (t : List String) :
    ∀ m : PyDict, ∀ b ∈ t,
      pyEqStr (dgetD (t.foldl (fun m b2 => mouseRename1 b2 m) m) "type" (.str ""))
        (b ++ "_click") = false := by
  induction t with
  | nil => intro m b hb; cases hb
  | cons b2 t2 ih =>
    intro m b hb
    rw [List.foldl_cons]
    rcases List.mem_cons.mp hb with rfl | hb2
    · rcases mouseRename1_fired_or_id b m with hf | ⟨hid, hchk⟩
      · apply mouse_check_preserved
        rw [dgetD_some _ hf]
        exact pyEqStr_click_append b
      · apply mouse_check_preserved
        rw [hid]
        exact hchk
    · exact ih (mouseRename1 b2 m) b hb2

theorem renameMouse_clean (m : PyDict) :
    ∀ b ∈ mouseButtons,
      pyEqStr (dgetD (renameMouse m) "type" (.str "")) (b ++ "_click") = false :=
  mouse_fold_clean mouseButtons m

theorem aliasRename1_fired_or_id (al : String) (m : PyDict) :
    (aliasRename1 al m) "type" = some (.str "keypress")
      ∨ (aliasRename1 al m = m ∧ pyEqStr (dgetD m "type" (.str "")) al = false) := by
  unfold aliasRename1
  split
  · left; rw [dset_apply]
  · right
    rename_i hcond
    exact ⟨rfl, by simpa using hcond⟩

theorem alias_check_preserved (t : List String) (s : String)
    (hs : pyEqStr (.str "keypress") s = false) :
    ∀ m : PyDict, pyEqStr (dgetD m "type" (.str "")) s = false →
      pyEqStr (dgetD (t.foldl (fun m al => aliasRename1 al m) m) "type" (.str "")) s
        = false := by
  induction t with
  | nil => intro m h; exact h
  | cons al t2 ih =>
    intro m h
    rw [List.foldl_cons]
    apply ih
    rcases aliasRename1_fired_or_id al m with hf | ⟨hid, _⟩
    · rw [dgetD_some _ hf]; exact hs
    · rw [hid]; exact h

theorem alias_fold_clean (t : List String)
    (hsub : ∀ al ∈ t, pyEqStr (.str "keypress") al = false) :
    ∀ m : PyDict, ∀ al ∈ t,
      pyEqStr (dgetD (t.foldl (fun m a => aliasRename1 a m) m) "type" (.str "")) al
        = false := by
  induction t with
  | nil => intro m al hal; cases hal
  | cons a t2 ih =>
    intro m al hal
    rw [List.foldl_cons]
    rcases List.mem_cons.mp hal with rfl | hal2
    · rcases aliasRename1_fired_or_id al m with hf | ⟨hid, hchk⟩
      · apply alias_check_preserved _ _ (hsub al (List.mem_cons_self _ _))
        rw [dgetD_some _ hf]
        exact hsub al (List.mem_cons_self _ _)
      · apply alias_check_preserved _ _ (hsub al (List.mem_cons_self _ _))
        rw [hid]
        exact hchk
    · exact ih (fun a ha => hsub a (List.mem_cons_of_mem _ ha)) (aliasRename1 a m) al hal2

theorem renameKeyAliases_clean (m : PyDict) :
    ∀ al ∈ typeAliases,
      pyEqStr (dgetD (renameKeyAliases m) "type" (.str "")) al = false :=
  alias_fold_clean typeAliases (by decide) m

theorem inferClick1_fired_or_id (m : PyDict) :
    (inferClick1 m) "type" = some (.str "click") ∨ inferClick1 m = m := by
  unfold inferClick1
  split
  · left; rw [dset_apply]
  · right; rfl

theorem inferClick2_fired_or_id (m : PyDict) :
    (inferClick2 m) "type" = some (.str "click") ∨ inferClick2 m = m := by
  unfold inferClick2
  split
  · left; rw [dset_apply]
  · right; rfl

theorem inferScroll_fired_or_id (m : PyDict) :
    (inferScroll m) "type" = some (.str "scroll") ∨ inferScroll m = m := by
  unfold inferScroll
  split
  · left; rw [dset_apply]
  · right; rfl

theorem inferText_fired_or_id (m : PyDict) :
    (inferText m) "type" = some (.str "type") ∨ inferText m = m := by
  unfold inferText
  split
  · left; rw [dset_apply]
  · right; rfl

theorem infer_check_preserved {s : String}
    (h1 : pyEqStr (.str "click") s = false) (h2 : pyEqStr (.str "scroll") s = false)
    (h3 : pyEqStr (.str "type") s = false) (m : PyDict)
    (h : pyEqStr (dgetD m "type" (.str "")) s = false) :
    pyEqStr (dgetD (inferTypeFromKeys m) "type" (.str "")) s = false := by
  unfold inferTypeFromKeys
  have s1 : pyEqStr (dgetD (inferClick1 m) "type" (.str "")) s = false := by
    rcases inferClick1_fired_or_id m with hf | hid
    · rw [dgetD_some _ hf]; exact h1
    · rw [hid]; exact h
  have s2 : pyEqStr (dgetD (inferClick2 (inferClick1 m)) "type" (.str "")) s = false := by
    rcases inferClick2_fired_or_id (inferClick1 m) with hf | hid
    · rw [dgetD_some _ hf]; exact h1
    · rw [hid]; exact s1
  have s3 : pyEqStr (dgetD (inferScroll (inferClick2 (inferClick1 m))) "type" (.str "")) s
      = false := by
    rcases inferScroll_fired_or_id (inferClick2 (inferClick1 m)) with hf | hid
    · rw [dgetD_some _ hf]; exact h2
    · rw [hid]; exact s2
  rcases inferText_fired_or_id (inferScroll (inferClick2 (inferClick1 m))) with hf | hid
  · rw [dgetD_some _ hf]; exact h3
  · rw [hid]; exact s3

/-- The `type` value reaching `action_type` fails every mouse-rename check and
every keypress-alias check: each rename loop leaves only values that no
longer match its own patterns, and later writes are canonical names. -/
theorem m3_clean (m0 : PyDict) :
    (∀ b ∈ mouseButtons,
      pyEqStr (dgetD (inferTypeFromKeys (renameKeyAliases (renameMouse m0))) "type"
        (.str "")) (b ++ "_click") = false)
    ∧ ∀ al ∈ typeAliases,
      pyEqStr (dgetD (inferTypeFromKeys (renameKeyAliases (renameMouse m0))) "type"
        (.str "")) al = false := by
  constructor
  · intro b hb
    apply infer_check_preserved
    · exact pyEqStr_click_append b
    · revert b hb; decide
    · revert b hb; decide
    · apply alias_check_preserved
      · revert b hb; decide
      · exact renameMouse_clean m0 b hb
  · intro al hal
    apply infer_check_preserved
    · revert al hal; decide
    · revert al hal; decide
    · revert al hal; decide
    · exact renameKeyAliases_clean (renameMouse m0) al hal

/-- C4 witness on `c4adj` with `n = 1`. -/
theorem retention_evicts_adjacent_pair_witness :
    (1 ∈ removeSet c4adj 1 ∧ ∀ q ∈ retainedEnum c4adj 1, q.1 ≠ 1)
      ∧ ∀ ridx rm, 1 = ridx + 1 → c4adj[ridx]? = some rm →
          rm.type = some "reasoning" →
          ridx ∈ removeSet c4adj 1 ∧ ∀ q ∈ retainedEnum c4adj 1, q.1 ≠ ridx :=
  retention_evicts_adjacent_pair 1 c4adj 1 ccoA ccA rfl rfl (by decide) rfl rfl

theorem keepForType_some {aty : Option PyVal} {ks : List String}
    (h : keepForType aty = some ks) :
    ∃ s, aty = some (.str s) ∧ requiredKeysByType s = some ks := by
  unfold keepForType at h
  split at h
  · rename_i s
    exact ⟨s, rfl, h⟩
  · cases h

theorem keepForType_none_eqs {aty : Option PyVal} (h : keepForType aty = none) :
    optEqStr aty "click" = false ∧ optEqStr aty "scroll" = false
      ∧ optEqStr aty "keypress" = false := by
  unfold keepForType at h
  cases aty with
  | none => exact ⟨rfl, rfl, rfl⟩
  | some v =>
    cases v with
    | str s =>
      refine ⟨?_, ?_, ?_⟩ <;>
        · show (s == _) = false
          apply beq_eq_false_iff_ne.mpr
          intro he
          subst he
          exact absurd h (by decide)
    | int n => exact ⟨rfl, rfl, rfl⟩
    | bool b => exact ⟨rfl, rfl, rfl⟩
    | float q => exact ⟨rfl, rfl, rfl⟩
    | list l => exact ⟨rfl, rfl, rfl⟩
    | dict d => exact ⟨rfl, rfl, rfl⟩

theorem required_mem_canonical {s : String} {ks : List String}
    (h : requiredKeysByType s = some ks) : s ∈ canonicalActionTypes := by
  unfold requiredKeysByType at h
  split at h <;> first | exact Option.noConfusion h | decide

theorem required_type_mem {s : String} {ks : List String}
    (h : requiredKeysByType s = some ks) : ks.contains "type" = true := by
  unfold requiredKeysByType at h
  split at h <;> first | exact Option.noConfusion h | (cases h; decide)

theorem required_no_coordinate {s : String} {ks : List String}
    (h : requiredKeysByType s = some ks) : ks.contains "coordinate" = false := by
  unfold requiredKeysByType at h
  split at h <;> first | exact Option.noConfusion h | (cases h; decide)

/-- Every canonical action type fails every rename check of the second pass. -/
theorem canonical_clean : ∀ s ∈ canonicalActionTypes,
    (∀ b ∈ mouseButtons, pyEqStr (.str s) (b ++ "_click") = false)
      ∧ ∀ al ∈ typeAliases, pyEqStr (.str s) al = false := by
  decide

theorem mouseRename1_eq_self {b : String} {m : PyDict}
    (h : pyEqStr (dgetD m "type" (.str "")) (b ++ "_click") = false) :
    mouseRename1 b m = m := by
  unfold mouseRename1
  rw [h]
  rfl

theorem renameMouse_eq_self {m : PyDict}
    (h : ∀ b ∈ mouseButtons,
      pyEqStr (dgetD m "type" (.str "")) (b ++ "_click") = false) :
    renameMouse m = m :=
  foldl_dict_id _ _ _ (fun b hb => mouseRename1_eq_self (h b hb))

theorem aliasRename1_eq_self {al : String} {m : PyDict}
    (h : pyEqStr (dgetD m "type" (.str "")) al = false) :
    aliasRename1 al m = m := by
  unfold aliasRename1
  rw [h]
  rfl

theorem renameKeyAliases_eq_self {m : PyDict}
    (h : ∀ al ∈ typeAliases, pyEqStr (dgetD m "type" (.str "")) al = false) :
    renameKeyAliases m = m :=
  foldl_dict_id _ _ _ (fun al hal => aliasRename1_eq_self (h al hal))

theorem inferClick1_eq_self {m : PyDict} (h : dmem m "type" = true) :
    inferClick1 m = m := by
  unfold inferClick1
  rw [h]
  simp

theorem inferClick2_eq_self {m : PyDict} (h : dmem m "type" = true) :
    inferClick2 m = m := by
  unfold inferClick2
  rw [h]
  simp

theorem inferScroll_eq_self {m : PyDict} (h : dmem m "type" = true) :
    inferScroll m = m := by
  unfold inferScroll
  rw [h]
  simp

theorem inferText_eq_self {m : PyDict} (h : dmem m "type" = true) :
    inferText m = m := by
  unfold inferText
  rw [h]
  simp

theorem inferTypeFromKeys_eq_self {m : PyDict} (h : dmem m "type" = true) :
    inferTypeFromKeys m = m := by
  unfold inferTypeFromKeys
  rw [inferClick1_eq_self h, inferClick2_eq_self h, inferScroll_eq_self h,
    inferText_eq_self h]

theorem inferClick1_eq_self2 {m : PyDict} (h : dmem m "button" = false) :
    inferClick1 m = m := by
  unfold inferClick1
  rw [h]
  simp

theorem inferClick2_eq_self2 {m : PyDict} (h : dmem m "click" = false) :
    inferClick2 m = m := by
  unfold inferClick2
  rw [h]
  simp

theorem inferScroll_eq_self2 {m : PyDict} (h1 : dmem m "scroll_x" = false)
    (h2 : dmem m "scroll_y" = false) : inferScroll m = m := by
  unfold inferScroll
  rw [h1, h2]
  simp

theorem inferText_eq_self2 {m : PyDict} (h : dmem m "text" = false) :
    inferText m = m := by
  unfold inferText
  rw [h]
  simp

theorem inferClick1_none {m : PyDict} (h : (inferClick1 m) "type" = none) :
    m "type" = none ∧ inferClick1 m = m ∧ dmem m "button" = false := by
  unfold inferClick1 at h ⊢
  split at h
  · rw [dset_apply] at h
    cases h
  · rename_i hcond
    have ht : m "type" = none := h
    have hb : dmem m "button" = false := by
      revert hcond
      simp [dmem, ht]
    exact ⟨ht, by rw [hb]; simp, hb⟩

theorem inferClick2_none {m : PyDict} (h : (inferClick2 m) "type" = none) :
    m "type" = none ∧ inferClick2 m = m ∧ dmem m "click" = false := by
  unfold inferClick2 at h ⊢
  split at h
  · rw [dset_apply] at h
    cases h
  · rename_i hcond
    have ht : m "type" = none := h
    have hb : dmem m "click" = false := by
      revert hcond
      simp [dmem, ht]
    exact ⟨ht, by rw [hb]; simp, hb⟩

theorem inferScroll_none {m : PyDict} (h : (inferScroll m) "type" = none) :
    m "type" = none ∧ inferScroll m = m
      ∧ dmem m "scroll_x" = false ∧ dmem m "scroll_y" = false := by
  unfold inferScroll at h ⊢
  split at h
  · rw [dset_apply] at h
    cases h
  · rename_i hcond
    have ht : m "type" = none := h
    have hb : dmem m "scroll_x" = false ∧ dmem m "scroll_y" = false := by
      revert hcond
      simp [dmem, ht]
    exact ⟨ht, by rw [hb.1, hb.2]; simp, hb⟩

theorem inferText_none {m : PyDict} (h : (inferText m) "type" = none) :
    m "type" = none ∧ inferText m = m ∧ dmem m "text" = false := by
  unfold inferText at h ⊢
  split at h
  · rw [dset_apply] at h
    cases h
  · rename_i hcond
    have ht : m "type" = none := h
    have hb : dmem m "text" = false := by
      revert hcond
      simp [dmem, ht]
    exact ⟨ht, by rw [hb]; simp, hb⟩

theorem inferTypeFromKeys_none {m : PyDict}
    (h : (inferTypeFromKeys m) "type" = none) :
    inferTypeFromKeys m = m ∧ m "type" = none
      ∧ dmem m "button" = false ∧ dmem m "click" = false
      ∧ dmem m "scroll_x" = false ∧ dmem m "scroll_y" = false
      ∧ dmem m "text" = false := by
  unfold inferTypeFromKeys at h
  obtain ⟨h3, e4, htext⟩ := inferText_none h
  obtain ⟨h2, e3, hsx, hsy⟩ := inferScroll_none h3
  obtain ⟨h1, e2, hclick⟩ := inferClick2_none h2
  obtain ⟨h0, e1, hbutton⟩ := inferClick1_none h1
  refine ⟨?_, h0, ?_, ?_, ?_, ?_, ?_⟩
  · unfold inferTypeFromKeys
    rw [e4, e3, e2, e1]
  · exact hbutton
  · rw [e1] at hclick; exact hclick
  · rw [e2, e1] at hsx; exact hsx
  · rw [e2, e1] at hsy; exact hsy
  · rw [e3, e2, e1] at htext; exact htext

theorem fixClick_eq_self_not {aty : Option PyVal} {m : PyDict}
    (h : optEqStr aty "click" = false) : fixClick aty m = m := by
  unfold fixClick
  rw [h]
  rfl

theorem fixScroll_eq_self_not {aty : Option PyVal} {m : PyDict}
    (h : optEqStr aty "scroll" = false) : fixScroll aty m = m := by
  unfold fixScroll
  rw [h]
  rfl

theorem fixKeypress_eq_self_not {aty : Option PyVal} {m : PyDict}
    (h : optEqStr aty "keypress" = false) : fixKeypress aty m = m := by
  unfold fixKeypress
  rw [h]
  rfl

theorem stripKeys_some {aty : Option PyVal} {ks : List String} (m : PyDict)
    (h : keepForType aty = some ks) : stripKeys aty m = keepOnly m ks := by
  unfold stripKeys
  rw [h]

theorem stripKeys_none {aty : Option PyVal} (m : PyDict)
    (h : keepForType aty = none) : stripKeys aty m = m := by
  unfold stripKeys
  rw [h]

theorem stripKeys_apply_not_mem {aty : Option PyVal} {ks : List String}
    {k : String} (m : PyDict) (h : keepForType aty = some ks)
    (hk : ks.contains k = false) : stripKeys aty m k = none := by
  rw [stripKeys_some m h]
  exact keepOnly_apply_not_mem _ hk

theorem clickFromAlias_eq_self {m : PyDict} (hb : dmem m "button" = true) :
    clickFromAlias m = m := by
  unfold clickFromAlias
  rw [hb]
  simp

theorem fixClick_eq_self_present {aty : Option PyVal} {m : PyDict}
    (hb : dmem m "button" = true) : fixClick aty m = m := by
  unfold fixClick
  split
  · obtain ⟨bv, hbv⟩ := Option.isSome_iff_exists.mp hb
    rw [clickFromAlias_eq_self hb, dgetD_some _ hbv, dset_self hbv]
  · rfl

theorem fixScroll_eq_self_present {aty : Option PyVal} {m : PyDict}
    (hx : dmem m "scroll_x" = true) (hy : dmem m "scroll_y" = true) :
    fixScroll aty m = m := by
  unfold fixScroll
  split
  · obtain ⟨xv, hxv⟩ := Option.isSome_iff_exists.mp hx
    obtain ⟨yv, hyv⟩ := Option.isSome_iff_exists.mp hy
    have e1 : setScrollX m = m := by
      unfold setScrollX
      rw [dgetD_some _ hxv, dset_self hxv]
    rw [e1, dgetD_some _ hyv, dset_self hyv]
  · rfl

theorem fixKeypress_eq_self_present {aty : Option PyVal} {m : PyDict}
    (hks : ∀ al ∈ keysAliases, m al = none)
    (hstr : ∀ t, m "keys" ≠ some (.str t)) : fixKeypress aty m = m := by
  unfold fixKeypress
  split
  · have hfold : keysAliases.foldl (fun m al => keysAlias1 al m) m = m :=
      foldl_dict_id _ _ _ (fun al hal => by
        unfold keysAlias1
        rw [hks al hal])
    rw [hfold]
    unfold fixKeysStr
    cases hc : m "keys" with
    | some v =>
      cases v with
      | str s => exact absurd hc (hstr s)
      | int n => rfl
      | bool b => rfl
      | float q => rfl
      | list l => rfl
      | dict d => rfl
    | none => rfl
  · rfl

theorem fixClick_button_isSome (aty : Option PyVal) (m : PyDict)
    (h : optEqStr aty "click" = true) : dmem (fixClick aty m) "button" = true := by
  unfold fixClick
  rw [h]
  simp [dmem, dset_apply]

theorem fixScroll_sx_isSome (aty : Option PyVal) (m : PyDict)
    (h : optEqStr aty "scroll" = true) : dmem (fixScroll aty m) "scroll_x" = true := by
  unfold fixScroll
  rw [h]
  simp only [if_true]
  rw [dmem, dset_apply_ne _ _ (by decide)]
  unfold setScrollX
  rw [dset_apply]
  rfl

theorem fixScroll_sy_isSome (aty : Option PyVal) (m : PyDict)
    (h : optEqStr aty "scroll" = true) : dmem (fixScroll aty m) "scroll_y" = true := by
  unfold fixScroll
  rw [h]
  simp [dmem, dset_apply]

theorem fixKeysStr_keys_not_str (m : PyDict) :
    ∀ t, fixKeysStr m "keys" = some (.str t) → False := by
  intro t h
  unfold fixKeysStr at h
  revert h
  cases hc : m "keys" with
  | some v =>
    cases v with
    | str s =>
      intro h
      have h2 : dset m "keys" (pySplitKeys s) "keys" = some (.str t) := h
      rw [dset_apply] at h2
      have h3 : pySplitKeys s = .str t := Option.some.inj h2
      revert h3
      unfold pySplitKeys
      split <;> (intro hh; cases hh)
    | int n =>
      intro h
      have h2 : m "keys" = some (.str t) := h
      rw [hc] at h2; cases h2
    | bool b =>
      intro h
      have h2 : m "keys" = some (.str t) := h
      rw [hc] at h2; cases h2
    | float q =>
      intro h
      have h2 : m "keys" = some (.str t) := h
      rw [hc] at h2; cases h2
    | list l =>
      intro h
      have h2 : m "keys" = some (.str t) := h
      rw [hc] at h2; cases h2
    | dict d =>
      intro h
      have h2 : m "keys" = some (.str t) := h
      rw [hc] at h2; cases h2
  | none =>
    intro h
    have h2 : m "keys" = some (.str t) := h
    rw [hc] at h2; cases h2

theorem fixKeypress_keys_not_str (aty : Option PyVal) (m : PyDict)
    (h : optEqStr aty "keypress" = true) :
    ∀ t, (fixKeypress aty m) "keys" = some (.str t) → False := by
  intro t hh
  unfold fixKeypress at hh
  rw [h] at hh
  simp only [if_true] at hh
  exact fixKeysStr_keys_not_str _ t hh

/-- Core of C2: a successful `normalizeAction` result is a fixed point. -/
theorem normalizeAction_idem {m0 n : PyDict} (h : normalizeAction m0 = .ok n) :
    normalizeAction n = .ok n := by
  have hclean := m3_clean m0
  unfold normalizeAction at h
  generalize hm3e : inferTypeFromKeys (renameKeyAliases (renameMouse m0)) = m3 at h hclean
  obtain ⟨hmc, hac⟩ := hclean
  split at h
  · cases h
  · rename_i m4 hco
    cases h
    set aty := m3 "type" with haty
    cases hkft : keepForType aty with
    | some ks =>
      obtain ⟨s, hty, hreq⟩ := keepForType_some hkft
      set n := normalizeTail aty m4 with hn0
      have hn : n = keepOnly (fixKeypress aty (fixScroll aty (fixClick aty m4))) ks := by
        rw [hn0]
        unfold normalizeTail
        rw [stripKeys_some _ hkft]
      have htype_mem := required_type_mem hreq
      have hnt : n "type" = some (.str s) := by
        rw [hn, keepOnly_apply_mem _ htype_mem,
          fixKeypress_apply _ _ (by decide) (by decide),
          fixScroll_apply _ _ (by decide) (by decide),
          fixClick_apply _ _ (by decide) (by decide),
          renameCoordinate_ok_apply hco (by decide) (by decide) (by decide), ← haty,
          hty]
      have hsclean := canonical_clean s (required_mem_canonical hreq)
      have e1 : renameMouse n = n := renameMouse_eq_self (fun b hb => by
        rw [dgetD_some _ hnt]
        exact hsclean.1 b hb)
      have e2 : renameKeyAliases n = n := renameKeyAliases_eq_self (fun al hal => by
        rw [dgetD_some _ hnt]
        exact hsclean.2 al hal)
      have e3 : inferTypeFromKeys n = n := inferTypeFromKeys_eq_self (by
        rw [dmem, hnt]; rfl)
      have hcoordn : n "coordinate" = none := by
        rw [hn]
        exact keepOnly_apply_not_mem _ (required_no_coordinate hreq)
      have e4 : renameCoordinate n = .ok n := renameCoordinate_none hcoordn
      have hkft_n : keepForType (n "type") = some ks := by
        rw [hnt]
        show requiredKeysByType s = some ks
        exact hreq
      have e5 : fixClick (n "type") n = n := by
        by_cases hck : s = "click"
        · subst hck
          have hks : ks = ["type", "button", "x", "y"] := (Option.some.inj hreq).symm
          have hbn : dmem n "button" = true := by
            rw [dmem, hn, keepOnly_apply_mem _ (by rw [hks]; decide),
              fixKeypress_apply _ _ (by decide) (by decide),
              fixScroll_apply _ _ (by decide) (by decide)]
            exact fixClick_button_isSome aty m4 (by rw [hty]; rfl)
          exact fixClick_eq_self_present hbn
        · apply fixClick_eq_self_not
          rw [hnt]
          show (s == "click") = false
          exact beq_eq_false_iff_ne.mpr hck
      have e6 : fixScroll (n "type") n = n := by
        by_cases hsc : s = "scroll"
        · subst hsc
          have hks : ks = ["type", "scroll_x", "scroll_y", "x", "y"] :=
            (Option.some.inj hreq).symm
          have hopt : optEqStr aty "scroll" = true := by rw [hty]; rfl
          have hxn : dmem n "scroll_x" = true := by
            rw [dmem, hn, keepOnly_apply_mem _ (by rw [hks]; decide),
              fixKeypress_apply _ _ (by decide) (by decide)]
            exact fixScroll_sx_isSome aty _ hopt
          have hyn : dmem n "scroll_y" = true := by
            rw [dmem, hn, keepOnly_apply_mem _ (by rw [hks]; decide),
              fixKeypress_apply _ _ (by decide) (by decide)]
            exact fixScroll_sy_isSome aty _ hopt
          exact fixScroll_eq_self_present hxn hyn
        · apply fixScroll_eq_self_not
          rw [hnt]
          show (s == "scroll") = false
          exact beq_eq_false_iff_ne.mpr hsc
      have e7 : fixKeypress (n "type") n = n := by
        by_cases hkp : s = "keypress"
        · subst hkp
          have hks : ks = ["type", "keys"] := (Option.some.inj hreq).symm
          have hopt : optEqStr aty "keypress" = true := by rw [hty]; rfl
          apply fixKeypress_eq_self_present
          · intro al hal
            rw [hn]
            apply keepOnly_apply_not_mem
            rw [hks]
            revert al hal
            decide
          · intro t ht2
            rw [hn, keepOnly_apply_mem _ (by rw [hks]; decide)] at ht2
            exact fixKeypress_keys_not_str aty _ hopt t ht2
        · apply fixKeypress_eq_self_not
          rw [hnt]
          show (s == "keypress") = false
          exact beq_eq_false_iff_ne.mpr hkp
      show normalizeAction n = .ok n
      unfold normalizeAction
      rw [e1, e2, e3, e4]
      show Except.ok (normalizeTail (n "type") n) = .ok n
      unfold normalizeTail
      rw [e5, e6, e7, stripKeys_some _ hkft_n, hn, keepOnly_idem]
    | none =>
      obtain ⟨hcl, hsc, hkp⟩ := keepForType_none_eqs hkft
      set n := normalizeTail aty m4 with hn0
      have hn4 : n = m4 := by
        rw [hn0]
        unfold normalizeTail
        rw [stripKeys_none _ hkft, fixKeypress_eq_self_not hkp,
          fixScroll_eq_self_not hsc, fixClick_eq_self_not hcl]
      have hnt : n "type" = m3 "type" := by
        rw [hn4]
        exact renameCoordinate_ok_apply hco (by decide) (by decide) (by decide)
      have hcoordn : n "coordinate" = none := by
        rw [hn4]
        exact renameCoordinate_ok_coordinate hco
      have e4 : renameCoordinate n = .ok n := renameCoordinate_none hcoordn
      cases hty3 : m3 "type" with
      | none =>
        have hm3n : m3 "type" = none := hty3
        rw [← hm3e] at hm3n
        obtain ⟨hinf_id, hXty, hXb, hXc, hXsx, hXsy, hXtx⟩ :=
          inferTypeFromKeys_none hm3n
        have hnn : n "type" = none := by rw [hnt, hty3]
        have hval : ∀ k : String, k ≠ "x" → k ≠ "y" → k ≠ "coordinate" →
            n k = (renameKeyAliases (renameMouse m0)) k := by
          intro k k1 k2 k3
          rw [hn4, renameCoordinate_ok_apply hco k1 k2 k3, ← hm3e, hinf_id]
        have hbn : dmem n "button" = false := by
          rw [dmem, hval "button" (by decide) (by decide) (by decide)]
          exact hXb
        have hcn : dmem n "click" = false := by
          rw [dmem, hval "click" (by decide) (by decide) (by decide)]
          exact hXc
        have hsxn : dmem n "scroll_x" = false := by
          rw [dmem, hval "scroll_x" (by decide) (by decide) (by decide)]
          exact hXsx
        have hsyn : dmem n "scroll_y" = false := by
          rw [dmem, hval "scroll_y" (by decide) (by decide) (by decide)]
          exact hXsy
        have htxn : dmem n "text" = false := by
          rw [dmem, hval "text" (by decide) (by decide) (by decide)]
          exact hXtx
        have e1 : renameMouse n = n := renameMouse_eq_self (fun b hb => by
          rw [dgetD_none _ hnn]
          revert b hb
          decide)
        have e2 : renameKeyAliases n = n := renameKeyAliases_eq_self (fun al hal => by
          rw [dgetD_none _ hnn]
          revert al hal
          decide)
        have e3 : inferTypeFromKeys n = n := by
          unfold inferTypeFromKeys
          rw [inferClick1_eq_self2 hbn, inferClick2_eq_self2 hcn,
            inferScroll_eq_self2 hsxn hsyn, inferText_eq_self2 htxn]
        show normalizeAction n = .ok n
        unfold normalizeAction
        rw [e1, e2, e3, e4]
        show Except.ok (normalizeTail (n "type") n) = .ok n
        unfold normalizeTail
        rw [hnn]
        rw [fixClick_eq_self_not
            (show optEqStr (none : Option PyVal) "click" = false from rfl),
          fixScroll_eq_self_not
            (show optEqStr (none : Option PyVal) "scroll" = false from rfl),
          fixKeypress_eq_self_not
            (show optEqStr (none : Option PyVal) "keypress" = false from rfl),
          stripKeys_none _ (show keepForType (none : Option PyVal) = none from rfl)]
      | some v =>
        have hntv : n "type" = some v := by rw [hnt, hty3]
        have hmcv : ∀ b ∈ mouseButtons, pyEqStr v (b ++ "_click") = false := by
          intro b hb
          have hx := hmc b hb
          rw [← haty] at hty3
          rw [dgetD_some _ (haty ▸ hty3)] at hx
          exact hx
        have hacv : ∀ al ∈ typeAliases, pyEqStr v al = false := by
          intro al hal
          have hx := hac al hal
          rw [← haty] at hty3
          rw [dgetD_some _ (haty ▸ hty3)] at hx
          exact hx
        have e1 : renameMouse n = n := renameMouse_eq_self (fun b hb => by
          rw [dgetD_some _ hntv]
          exact hmcv b hb)
        have e2 : renameKeyAliases n = n := renameKeyAliases_eq_self (fun al hal => by
          rw [dgetD_some _ hntv]
          exact hacv al hal)
        have e3 : inferTypeFromKeys n = n := inferTypeFromKeys_eq_self (by
          rw [dmem, hntv]; rfl)
        have hkftv : keepForType (some v) = none := by
          rw [← hty3, ← haty]
          exact hkft
        obtain ⟨kcl, ksc, kkp⟩ := keepForType_none_eqs hkftv
        show normalizeAction n = .ok n
        unfold normalizeAction
        rw [e1, e2, e3, e4]
        show Except.ok (normalizeTail (n "type") n) = .ok n
        unfold normalizeTail
        rw [hntv]
        rw [fixClick_eq_self_not kcl, fixScroll_eq_self_not ksc,
          fixKeypress_eq_self_not kkp, stripKeys_none _ hkftv]

theorem normalizeItem_idem {it it2 : OutItem} (h : normalizeItem it = .ok it2) :
    normalizeItem it2 = .ok it2 := by
  unfold normalizeItem at h ⊢
  split at h
  · rename_i hty
    split at h
    · rename_i m hm
      split at h
      · rename_i m2 hna
        cases h
        rw [if_pos hty]
        have hna2 : normalizeAction m2 = .ok m2 := normalizeAction_idem hna
        show (match normalizeAction m2 with
            | Except.ok m3 =>
              Except.ok (OutItem.mk it.itemType (some (PyVal.dict m3)))
            | Except.error e => Except.error e)
          = Except.ok (OutItem.mk it.itemType (some (PyVal.dict m2)))
        rw [hna2]
      · cases h
    · rename_i hnotdict
      cases h
      rw [if_pos hty]
      split
      · rename_i m hm
        exact absurd hm (hnotdict m)
      · rfl
  · rename_i hty
    cases h
    rw [if_neg hty]

theorem on_llm_end_fixed {x y : List OutItem} (h : on_llm_end x = .ok y) :
    on_llm_end y = .ok y := by
  induction x generalizing y with
  | nil =>
    cases h
    rfl
  | cons it rest ih =>
    rw [on_llm_end] at h
    split at h
    · cases h
    · rename_i it2 hit
      split at h
      · cases h
      · rename_i rest2 hrest
        cases h
        rw [on_llm_end, normalizeItem_idem hit, ih hrest]

/-- C2: `OperatorNormalizerCallback.on_llm_end` is idempotent — composing the
normalizer with itself agrees with a single application on every output list
(and a Python exception propagates identically on both sides). -/
theorem operator_normalizer_idem (x : List OutItem) :
    (on_llm_end x).bind on_llm_end = on_llm_end x := by
  cases h : on_llm_end x with
  | error e => rfl
  | ok y =>
    show on_llm_end y = .ok y
    exact on_llm_end_fixed h

theorem except_ok_ext {f g : PyDict} (h : ∀ k, f k = g k) :
    (Except.ok f : Except String PyDict) = .ok g :=
  congrArg Except.ok (funext h)

/-- C6: the S4 scenario — a `left_click` action with `coordinate: [50, 60]`
normalizes to exactly `{type: "click", button: "left", x: 50, y: 60}`; the
function-typed equality means no other key is present. -/
theorem operator_normalizer_left_click :
    normalizeAction c6_input = .ok c6_expected := by
  show Except.ok _ = Except.ok c6_expected
  apply except_ok_ext
  intro k
  by_cases h1 : k = "type"
  · subst h1; rfl
  by_cases h2 : k = "button"
  · subst h2; rfl
  by_cases h3 : k = "x"
  · subst h3; rfl
  by_cases h4 : k = "y"
  · subst h4; rfl
  have hdom : (["type", "button", "x", "y"] : List String).contains k = false := by
    simp [h1, h2, h3, h4]
  have hexp : c6_expected k = none := by
    simp [c6_expected, h1, h2, h3, h4]
  rw [hexp]
  exact stripKeys_apply_not_mem _ rfl hdom

/-! ## Theorems about coordinate rescaling -/

/-- C3 (code bug): with a smart-resized screenshot of width 800 and height
600 (`rw = 800`, `rh = 600`) and model coordinate `[500, 500]`, Qwen's
`predict_click` returns `(300, 400)`: its call site passes `(rh, rw)` to
`_unnormalize_coordinate`, which reads `dims` as `(width, height)`, so x is
scaled by the resized height and y by the resized width.  The claim's rule —
followed by `predict_step` (which passes `(last_rw, last_rh)`) and by
Gemini's `_denormalize` — gives x = 400 and y = 300 instead. -/
theorem qwen_round_300 : pyRound (300 : ℚ) = 300 := by
  unfold pyRound
  rw [show ⌊(300 : ℚ)⌋ = 300 by
    rw [show (300 : ℚ) = ((300 : ℤ) : ℚ) by norm_num, Int.floor_intCast]]
  rw [if_pos (by push_cast; norm_num)]

theorem qwen_round_400 : pyRound (400 : ℚ) = 400 := by
  unfold pyRound
  rw [show ⌊(400 : ℚ)⌋ = 400 by
    rw [show (400 : ℚ) = ((400 : ℤ) : ℚ) by norm_num, Int.floor_intCast]]
  rw [if_pos (by push_cast; norm_num)]

theorem qwen_unnorm_500_600 : unnormCoord1 ((500 : ℤ) : ℚ) 600 = 300 := by
  unfold unnormCoord1
  rw [show ((500 : ℤ) : ℚ) / 1000 * 600 = 300 by norm_num]
  rw [show pyMin 600 300 = 300 by unfold pyMin; rw [if_neg (by norm_num)]]
  rw [show pyMax 0 300 = 300 by unfold pyMax; rw [if_pos (by norm_num)]]
  exact qwen_round_300

theorem qwen_unnorm_500_800 : unnormCoord1 ((500 : ℤ) : ℚ) 800 = 400 := by
  unfold unnormCoord1
  rw [show ((500 : ℤ) : ℚ) / 1000 * 800 = 400 by norm_num]
  rw [show pyMin 800 400 = 400 by unfold pyMin; rw [if_neg (by norm_num)]]
  rw [show pyMax 0 400 = 400 by unfold pyMax; rw [if_pos (by norm_num)]]
  exact qwen_round_400

theorem qwen_predict_click_swapped_dims :
    qwen_predict_click_coords 600 800 c3_args = .ok (some (300, 400))
      ∧ claimRescale 500 500 800 600 = (400, 300)
      ∧ qwen_predict_step_unnormalize 800 600 c3_args
          = .ok (dset c3_args "coordinate" (.list [.int 400, .int 300]))
      ∧ denormalize 500 800 = 400 := by
  have hA := qwen_unnorm_500_600
  have hB := qwen_unnorm_500_800
  refine ⟨?_, ?_, ?_, ?_⟩
  · have e : qwen_predict_click_coords 600 800 c3_args
        = .ok (some (unnormCoord1 ((500 : ℤ) : ℚ) 600,
            unnormCoord1 ((500 : ℤ) : ℚ) 800)) := rfl
    rw [e, hA, hB]
  · have e : claimRescale 500 500 800 600
        = (pyRound (pyMax 0 (pyMin 800 ((500 : ℚ) / 1000 * 800))),
           pyRound (pyMax 0 (pyMin 600 ((500 : ℚ) / 1000 * 600)))) := rfl
    rw [e]
    rw [show (500 : ℚ) / 1000 * 800 = 400 by norm_num]
    rw [show (500 : ℚ) / 1000 * 600 = 300 by norm_num]
    rw [show pyMin 800 400 = 400 by unfold pyMin; rw [if_neg (by norm_num)]]
    rw [show pyMin 600 300 = 300 by unfold pyMin; rw [if_neg (by norm_num)]]
    rw [show pyMax 0 400 = 400 by unfold pyMax; rw [if_pos (by norm_num)]]
    rw [show pyMax 0 300 = 300 by unfold pyMax; rw [if_pos (by norm_num)]]
    rw [qwen_round_300, qwen_round_400]
  · have e : qwen_predict_step_unnormalize 800 600 c3_args
        = .ok (dset c3_args "coordinate"
            (.list [.int (unnormCoord1 ((500 : ℤ) : ℚ) 800),
              .int (unnormCoord1 ((500 : ℤ) : ℚ) 600)])) := rfl
    rw [e, hA, hB]
  · have e : denormalize 500 800
        = pyMaxI 0 (pyMinI ((800 : ℤ) - 1) (pyRound (((500 : ℤ) : ℚ) / 1000 * 800))) := by
      unfold denormalize
      norm_num
    rw [e]
    rw [show ((500 : ℤ) : ℚ) / 1000 * 800 = 400 by norm_num, qwen_round_400]
    rw [show pyMinI ((800 : ℤ) - 1) 400 = 400 by unfold pyMinI; rw [if_neg (by norm_num)]]
    unfold pyMaxI
    rw [if_pos (by norm_num)]

theorem clamp_bounds (A v : ℤ) (hA : 0 ≤ A) :
    0 ≤ pyMaxI 0 (pyMinI A v) ∧ pyMaxI 0 (pyMinI A v) ≤ A := by
  unfold pyMaxI pyMinI
  split_ifs <;> omega

/-- C9: for positive image dimensions, the InternVL `_scale_norm_to_pixels`
result and the Holo `predict_click` finalization both land inside the
original image bounds `[0, width-1] × [0, height-1]`, for every parsed model
output (both functions clamp as their last step). -/
theorem grounder_click_in_bounds (x_norm y_norm : ℚ) (width height : ℕ)
    (origW origH procW procH : ℕ) (x y : ℤ)
    (hw : 0 < width) (hh : 0 < height) (how : 0 < origW) (hoh : 0 < origH) :
    (0 ≤ (scale_norm_to_pixels x_norm y_norm width height).1
      ∧ (scale_norm_to_pixels x_norm y_norm width height).1 ≤ (width : ℤ) - 1
      ∧ 0 ≤ (scale_norm_to_pixels x_norm y_norm width height).2
      ∧ (scale_norm_to_pixels x_norm y_norm width height).2 ≤ (height : ℤ) - 1)
    ∧ (0 ≤ (holo_finalize origW origH procW procH x y).1
      ∧ (holo_finalize origW origH procW procH x y).1 ≤ (origW : ℤ) - 1
      ∧ 0 ≤ (holo_finalize origW origH procW procH x y).2
      ∧ (holo_finalize origW origH procW procH x y).2 ≤ (origH : ℤ) - 1) := by
  have hw1 : (0 : ℤ) ≤ (width : ℤ) - 1 := by omega
  have hh1 : (0 : ℤ) ≤ (height : ℤ) - 1 := by omega
  have how1 : (0 : ℤ) ≤ (origW : ℤ) - 1 := by omega
  have hoh1 : (0 : ℤ) ≤ (origH : ℤ) - 1 := by omega
  exact ⟨⟨(clamp_bounds _ _ hw1).1, (clamp_bounds _ _ hw1).2,
      (clamp_bounds _ _ hh1).1, (clamp_bounds _ _ hh1).2⟩,
    ⟨(clamp_bounds _ _ how1).1, (clamp_bounds _ _ how1).2,
      (clamp_bounds _ _ hoh1).1, (clamp_bounds _ _ hoh1).2⟩⟩

/-- C9 witness at concrete sizes (InternVL 800×600, Holo 1024×768 with a
512×384 processed image and parsed point (100, 200)). -/
theorem grounder_click_in_bounds_witness :
    (0 ≤ (scale_norm_to_pixels 500 500 800 600).1
      ∧ (scale_norm_to_pixels 500 500 800 600).1 ≤ (800 : ℤ) - 1
      ∧ 0 ≤ (scale_norm_to_pixels 500 500 800 600).2
      ∧ (scale_norm_to_pixels 500 500 800 600).2 ≤ (600 : ℤ) - 1)
    ∧ (0 ≤ (holo_finalize 1024 768 512 384 100 200).1
      ∧ (holo_finalize 1024 768 512 384 100 200).1 ≤ (1024 : ℤ) - 1
      ∧ 0 ≤ (holo_finalize 1024 768 512 384 100 200).2
      ∧ (holo_finalize 1024 768 512 384 100 200).2 ≤ (768 : ℤ) - 1) :=
  grounder_click_in_bounds 500 500 800 600 1024 768 512 384 100 200
    (by decide) (by decide) (by decide) (by decide)

/-! ## Theorems about the remaining components -/

/-- C5: for a grounder-only model, `predict_step` of both the InternVL and
the OpenCUA strategy returns exactly the composed planner+grounder
strategy's `predict_step` applied to the self-composed model string
`m ++ "+" ++ m` and the unchanged remaining arguments — for every composed
strategy, model string and argument bundle. -/
theorem grounder_step_self_composes {Handler Hooks Kwargs R : Type}
    (composed : ComposedStep Handler Hooks Kwargs R) (model : String)
    (args : StepArgs Handler Hooks Kwargs) :
    internvl_predict_step composed model args = composed (model ++ "+" ++ model) args
      ∧ opencua_predict_step composed model args
        = composed (model ++ "+" ++ model) args :=
  ⟨rfl, rfl⟩

/-- C7: `process_request` returns exactly one turn — the success dictionary
built from the first `agent.run` result, independent of any further results —
and a missing model, missing input, setup/conversion exception or run
exception all produce a `success = False` dictionary with an error message
instead of a propagated exception (the embedding is total by construction). -/
theorem process_request_one_turn (req : ProxyRequest) (setup : Except String Unit)
    (run : Except String (List PyVal)) :
    (∀ m iv msgs r rest,
        req.model = some m → m ≠ "" →
        req.input = some iv → inputTruthy (some iv) = true →
        setup = .ok () →
        convert_input_to_messages iv = .ok msgs →
        run = .ok (r :: rest) →
        process_request req setup run
          = { success := true, result := some r, error := none, model := some m })
    ∧ ((modelTruthy req.model = false ∨ inputTruthy req.input = false
          ∨ (∃ e, setup = .error e)
          ∨ (∃ iv e, req.input = some iv ∧ convert_input_to_messages iv = .error e)
          ∨ (∃ e, run = .error e)) →
        (process_request req setup run).success = false
          ∧ (process_request req setup run).error.isSome = true) := by
  constructor
  · rintro m iv msgs r rest hm hmne hi hit hsetup hconv hrun
    simp [process_request, hm, hmne, hi, hit, hsetup, hconv, hrun]
  · intro hdisj
    rcases hmod : req.model with _ | m
    · simp [process_request, hmod, errorResponse]
    · by_cases hm0 : m = ""
      · simp [process_request, hmod, hm0, errorResponse]
      · rcases hin : req.input with _ | iv
        · simp [process_request, hmod, hm0, hin, errorResponse]
        · by_cases hit : inputTruthy (some iv) = true
          · rcases hset : setup with e | u
            · simp [process_request, hmod, hm0, hin, hit, hset, errorResponse]
            · rcases hconv : convert_input_to_messages iv with e | msgs
              · simp [process_request, hmod, hm0, hin, hit, hset, hconv,
                  errorResponse]
              · rcases hrun : run with e | rs
                · simp [process_request, hmod, hm0, hin, hit, hset, hconv, hrun,
                    errorResponse]
                · cases rs with
                  | nil =>
                    simp [process_request, hmod, hm0, hin, hit, hset, hconv, hrun]
                  | cons r rest =>
                    exfalso
                    rcases hdisj with h1 | h2 | ⟨e, h3⟩ | ⟨iv2, e, hi2, h4⟩ | ⟨e, h5⟩
                    · rw [hmod] at h1
                      simp [modelTruthy, hm0] at h1
                    · rw [hin] at h2
                      simp [hit] at h2
                    · rw [hset] at h3
                      cases h3
                    · rw [hin] at hi2
                      cases hi2
                      rw [hconv] at h4
                      cases h4
                    · rw [hrun] at h5
                      cases h5
          · have hit2 : inputTruthy (some iv) = false := by
              revert hit
              cases inputTruthy (some iv) <;> simp
            simp [process_request, hmod, hm0, hin, hit2, errorResponse]

/-- C7 witness: a valid request with two pending turns returns the first
result only. -/
theorem process_request_one_turn_witness :
    process_request c7req (.ok ()) (.ok [.str "turn1", .str "turn2"])
      = { success := true, result := some (.str "turn1"), error := none,
          model := some "gpt-test" } :=
  (process_request_one_turn c7req (.ok ()) (.ok [.str "turn1", .str "turn2"])).1
    "gpt-test" (.text "click the button") _ (.str "turn1") [.str "turn2"]
    rfl (by decide) rfl rfl rfl rfl rfl

/-- C8: `_telemetry_disabled` is true exactly under the claim's condition —
`CUA_TELEMETRY` equal to "off" case-insensitively, or `CUA_TELEMETRY_ENABLED`
(defaulting to "true" when unset) not among "1"/"true"/"yes"/"on"
case-insensitively — and in every such environment `is_telemetry_enabled`
returns `False`, whatever the client state and the posthog import yield. -/
theorem telemetry_disabled_spec :
    (∀ env : EnvMap, telemetry_disabled env = true ↔ claimTelemetryDisabled env)
    ∧ ∀ (env : EnvMap) (posthog : Option (Except String Unit)) (st : TelemetryState),
        telemetry_disabled env = true → is_telemetry_enabled env posthog st = false := by
  constructor
  · intro env
    unfold telemetry_disabled claimTelemetryDisabled envGetD
    have hemp : (pyLower "" == "off") = false := by decide
    cases h1 : env "CUA_TELEMETRY" <;> cases h2 : env "CUA_TELEMETRY_ENABLED" <;>
      simp [hemp]
  · intro env posthog st h
    unfold is_telemetry_enabled
    rw [h]
    simp

/-- C8 witness: `CUA_TELEMETRY=OFF` disables telemetry even with a working
posthog client available. -/
theorem telemetry_disabled_spec_witness :
    telemetry_disabled c8env = true
      ∧ is_telemetry_enabled c8env (some (.ok ())) ⟨none, false⟩ = false :=
  ⟨by decide, telemetry_disabled_spec.2 c8env (some (.ok ())) ⟨none, false⟩ (by decide)⟩

theorem applyOverrides_fst (ov : List (String × String)) :
    ∀ e : EnvMap, (ov.map Prod.fst).Nodup →
      (applyOverrides ov e).1 = ov.map (fun p => (p.1, e p.1)) := by
  induction ov with
  | nil => intro e _; rfl
  | cons p rest ih =>
    intro e h
    obtain ⟨k, v⟩ := p
    simp only [List.map_cons] at h ⊢
    have hhead : k ∉ rest.map Prod.fst := (List.nodup_cons.mp h).1
    have htail : (rest.map Prod.fst).Nodup := (List.nodup_cons.mp h).2
    show (k, e k) :: (applyOverrides rest (envSet e k v)).1
        = (k, e k) :: rest.map (fun p => (p.1, e p.1))
    rw [ih (envSet e k v) htail]
    congr 1
    apply List.map_congr_left
    intro p hp
    have hne : p.1 ≠ k := by
      intro hee
      exact hhead (hee ▸ List.mem_map_of_mem Prod.fst hp)
    rw [envSet, if_neg hne]

theorem envSetOpt_apply (e : EnvMap) (k : String) (old : Option String) :
    envSetOpt e k old k = old := by
  cases old with
  | none => simp [envSetOpt, envDel]
  | some s => simp [envSetOpt, envSet]

theorem envSetOpt_apply_ne {q k : String} (e : EnvMap) (old : Option String)
    (h : q ≠ k) : envSetOpt e k old q = e q := by
  cases old with
  | none => simp [envSetOpt, envDel, h]
  | some s => simp [envSetOpt, envSet, h]

theorem restoreOverrides_not_mem (l : List (String × Option String)) :
    ∀ (e : EnvMap) (k : String), k ∉ l.map Prod.fst →
      restoreOverrides l e k = e k := by
  induction l with
  | nil => intro e k _; rfl
  | cons p rest ih =>
    intro e k hk
    obtain ⟨k0, o0⟩ := p
    simp only [List.map_cons, List.mem_cons] at hk
    push_neg at hk
    show restoreOverrides rest (envSetOpt e k0 o0) k = e k
    rw [ih _ k hk.2]
    exact envSetOpt_apply_ne e o0 hk.1

theorem restoreOverrides_mem (l : List (String × Option String)) :
    ∀ (e : EnvMap) (k : String) (old : Option String),
      (l.map Prod.fst).Nodup → (k, old) ∈ l →
      restoreOverrides l e k = old := by
  induction l with
  | nil => intro e k old _ hm; cases hm
  | cons p rest ih =>
    intro e k old hnd hm
    obtain ⟨k0, o0⟩ := p
    simp only [List.map_cons] at hnd
    have hhead : k0 ∉ rest.map Prod.fst := (List.nodup_cons.mp hnd).1
    have htail : (rest.map Prod.fst).Nodup := (List.nodup_cons.mp hnd).2
    rcases List.mem_cons.mp hm with he | hrest
    · cases he
      show restoreOverrides rest (envSetOpt e k old) k = old
      rw [restoreOverrides_not_mem rest _ k hhead]
      exact envSetOpt_apply e k old
    · show restoreOverrides rest (envSetOpt e k0 o0) k = old
      exact ih _ k old htail hrest

/-- C10: `_env_overrides` leaves the process environment unchanged overall:
after exit — the body's exception, if any, being re-raised unchanged — every
overridden variable regains its prior value (previously unset ones are
removed, i.e. read as `none` again), and every other variable holds exactly
what the body left there.  `Nodup` holds because `env` is a Python dict. -/
theorem env_overrides_restores (ov : List (String × String))
    (body : EnvMap → EnvMap × Option String) (e : EnvMap)
    (hnd : (ov.map Prod.fst).Nodup) :
    (∀ k, k ∈ ov.map Prod.fst → (env_overrides_run ov body e).1 k = e k)
      ∧ (∀ k, k ∉ ov.map Prod.fst →
          (env_overrides_run ov body e).1 k = (body (applyOverrides ov e).2).1 k)
      ∧ (env_overrides_run ov body e).2 = (body (applyOverrides ov e).2).2 := by
  by_cases hov : ov.isEmpty
  · have hnil : ov = [] := by
      cases ov with
      | nil => rfl
      | cons p rest => cases hov
    subst hnil
    refine ⟨fun k hk => absurd hk (by simp), fun k _ => rfl, rfl⟩
  · have hrun : env_overrides_run ov body e
        = (restoreOverrides (applyOverrides ov e).1 (body (applyOverrides ov e).2).1,
           (body (applyOverrides ov e).2).2) := by
      unfold env_overrides_run
      rw [if_neg hov]
    rw [hrun]
    have hfst := applyOverrides_fst ov e hnd
    have hkeys : (applyOverrides ov e).1.map Prod.fst = ov.map Prod.fst := by
      rw [hfst, List.map_map]
      rfl
    refine ⟨?_, ?_, rfl⟩
    · intro k hk
      have hmem : (k, e k) ∈ (applyOverrides ov e).1 := by
        rw [hfst]
        rcases List.mem_map.mp hk with ⟨p, hp, rfl⟩
        exact List.mem_map_of_mem (fun p => (p.1, e p.1)) hp
      exact restoreOverrides_mem _ _ k (e k) (by rw [hkeys]; exact hnd) hmem
    · intro k hk
      exact restoreOverrides_not_mem _ _ k (by rw [hkeys]; exact hk)

/-- C10 witness: two overrides (one previously set, one previously unset)
around a body that mutates a third variable and raises. -/
theorem env_overrides_restores_witness :
    (c10ov.map Prod.fst).Nodup
      ∧ ((∀ k, k ∈ c10ov.map Prod.fst →
            (env_overrides_run c10ov c10body c10env).1 k = c10env k)
        ∧ (∀ k, k ∉ c10ov.map Prod.fst →
            (env_overrides_run c10ov c10body c10env).1 k
              = (c10body (applyOverrides c10ov c10env).2).1 k)
        ∧ (env_overrides_run c10ov c10body c10env).2
            = (c10body (applyOverrides c10ov c10env).2).2) :=
  ⟨by decide, env_overrides_restores c10ov c10body c10env (by decide)⟩

end Cua
